import Mathlib

/-
Shallow embedding of the ComponentPool repository (ComponentTestbed):
a fixed-capacity, cache-coherent component store with generation-checked
handles.

Modelling conventions:
- Raw pointers into the control-block array and the component array are
  modelled as indices.  The pointer stored in a control block's
  _component field is the index of the component slot it points at
  (the offset of the record from the base of the _components array);
  a null pointer is Option.none.
- size_t arithmetic that can wrap (unsigned subtraction, and the
  ptrdiff_t-to-size_t conversion in SwapComponents' arguments) is made
  explicit with intToSize / usub, reducing modulo 2 ^ 64.  Increments
  never approach 2 ^ 64 in any state considered here and are kept plain.
- The C++ code performs unchecked array accesses; an access outside the
  array extent, or through an uninitialized control-table entry, is
  undefined behavior in the source and is modelled as the explicit
  outcome PoolError.undefinedBehavior.
- A pending-changes drain that never reaches a null next pointer would
  loop forever in the source; the model runs the loop on fuel and
  reports PoolError.nonTermination when the fuel is exhausted.
- Exceptions are modelled with Except: a thrown std::runtime_error is an
  Except.error carrying the corresponding PoolError value.
- The component records themselves are opaque to the store (the record
  type is a template parameter); the model stores one Nat per slot, the
  identity that a record's constructor was given, so that which records
  are visited by Update can be observed.
-/

set_option maxRecDepth 100000

/-- Decidable equality of Except values, used to evaluate the model on
concrete inputs. -/
instance {ε α : Type} [DecidableEq ε] [DecidableEq α] : DecidableEq (Except ε α) :=
  fun a b =>
    match a, b with
    | .error e, .error f =>
      if h : e = f then .isTrue (by rw [h]) else .isFalse (by simp [h])
    | .ok x, .ok y =>
      if h : x = y then .isTrue (by rw [h]) else .isFalse (by simp [h])
    | .error _, .ok _ => .isFalse (by simp)
    | .ok _, .error _ => .isFalse (by simp)

/-- Failure outcomes of the store and the block pool.  The first five are
the reported error conditions of the source (thrown exceptions); the last
two are markers for executions on which the C++ source has no defined
result. -/
inductive PoolError where
  /-- Create at full capacity: "Allocation limit reached for component store." -/
  | capacityExceeded
  /-- Allocate from an empty free list: "Tried to allocate an object from the ObjectPool but was empty." -/
  | poolExhausted
  /-- Allocate or Deallocate with num_objects different from 1. -/
  | badObjectCount
  /-- Deallocate with a pointer that fails IsPointerValid. -/
  | invalidPointer
  /-- A stale or null component reference. -/
  | invalidHandle
  /-- A handle whose control block does not belong to this pool. -/
  | foreignHandle
  /-- Marker for an unchecked out-of-bounds array access or a read through
  an uninitialized control-table entry: undefined behavior in the source. -/
  | undefinedBehavior
  /-- Marker for a pending-changes drain that does not terminate. -/
  | nonTermination
deriving DecidableEq, Repr

/-- Width of size_t: values reduce modulo 2 ^ 64. -/
def SIZE_MOD : Nat := 2 ^ 64

/-- Conversion of a signed (ptrdiff_t) value to size_t: reduce modulo 2 ^ 64. -/
def intToSize (i : Int) : Nat := (i.emod (SIZE_MOD : Int)).toNat

/-- Unsigned (size_t) subtraction: wraps modulo 2 ^ 64. -/
def usub (a b : Nat) : Nat := intToSize ((a : Int) - (b : Int))

/-- The control block for component references (ComponentReferenceControlBlock).
The uint8 flag set of the source is modelled as four named booleans, one
per named bit (IS_ACTIVE, PENDING_ACTIVE, PENDING_SLEEP, PENDING_DELETE);
every flag access in the source goes through one of these named bits. -/
structure ComponentReferenceControlBlock where
  /-- Intrusive link: next block in the pending-changes list or the free list. -/
  next : Option Nat
  /-- Cached pointer to the managed component: the index of its slot, none for null. -/
  component : Option Nat
  /-- Garbage-detection tag, incremented on each destruction; persists across reuses. -/
  tag : Nat
  /-- The IS_ACTIVE flag bit. -/
  isActive : Bool
  /-- The PENDING_ACTIVE flag bit. -/
  pendingActive : Bool
  /-- The PENDING_SLEEP flag bit. -/
  pendingSleep : Bool
  /-- The PENDING_DELETE flag bit. -/
  pendingDelete : Bool
deriving DecidableEq, Repr

namespace ComponentReferenceControlBlock

/-- The default constructor: null links, null component, tag 0, no flags. -/
def init : ComponentReferenceControlBlock :=
  ⟨none, none, 0, false, false, false, false⟩

instance : Inhabited ComponentReferenceControlBlock := ⟨init⟩

/-- The (void* component) constructor, run by CRCBPool::Construct via
placement new over an existing block: sets the component pointer and the
IS_ACTIVE flag, nulls the link, and deliberately leaves the garbage tag
as it was. -/
def construct (c : ComponentReferenceControlBlock) (component : Nat) :
    ComponentReferenceControlBlock :=
  ⟨none, some component, c.tag, true, false, false, false⟩

/-- The destructor: clears the component pointer, the flags and the link,
and increments the garbage tag. -/
def destruct (c : ComponentReferenceControlBlock) : ComponentReferenceControlBlock :=
  ⟨none, none, c.tag + 1, false, false, false, false⟩

/-- IsComponentActive: reads the IS_ACTIVE bit. -/
def IsComponentActive (c : ComponentReferenceControlBlock) : Bool := c.isActive

/-- SetComponentActive: overwrites the IS_ACTIVE bit. -/
def SetComponentActive (c : ComponentReferenceControlBlock) (new_active : Bool) :
    ComponentReferenceControlBlock :=
  { c with isActive := new_active }

/-- MarkActiveStateChange: sets PENDING_ACTIVE or PENDING_SLEEP. -/
def MarkActiveStateChange (c : ComponentReferenceControlBlock) (new_active : Bool) :
    ComponentReferenceControlBlock :=
  if new_active then { c with pendingActive := true } else { c with pendingSleep := true }

/-- IsPendingChanges: any of the three pending bits. -/
def IsPendingChanges (c : ComponentReferenceControlBlock) : Bool :=
  c.pendingActive || c.pendingSleep || c.pendingDelete

/-- IsPendingActiveStateChange: PENDING_ACTIVE or PENDING_SLEEP. -/
def IsPendingActiveStateChange (c : ComponentReferenceControlBlock) : Bool :=
  c.pendingActive || c.pendingSleep

/-- GetPendingActiveStateChange: reads the PENDING_ACTIVE bit. -/
def GetPendingActiveStateChange (c : ComponentReferenceControlBlock) : Bool :=
  c.pendingActive

/-- ClearPendingChanges: clears the three pending bits. -/
def ClearPendingChanges (c : ComponentReferenceControlBlock) :
    ComponentReferenceControlBlock :=
  { c with pendingActive := false, pendingSleep := false, pendingDelete := false }

/-- MarkForDeletion: sets PENDING_DELETE. -/
def MarkForDeletion (c : ComponentReferenceControlBlock) :
    ComponentReferenceControlBlock :=
  { c with pendingDelete := true }

/-- IsPendingDeletion: reads the PENDING_DELETE bit. -/
def IsPendingDeletion (c : ComponentReferenceControlBlock) : Bool := c.pendingDelete

/-- GetGarbageTag: reads the garbage tag. -/
def GetGarbageTag (c : ComponentReferenceControlBlock) : Nat := c.tag

end ComponentReferenceControlBlock

/-- A raw ComponentReferenceControlBlock pointer as seen by the pool's
validity check: whether it is null, the value of the pointer subtraction
ptr - addressof(_pool[0]) (a ptrdiff_t), and whether the pointer is the
exact address of the pool element at that offset (slot alignment). -/
structure CRCBPtr where
  isNull : Bool
  offset : Int
  aligned : Bool
deriving DecidableEq, Repr

/-- The pointer to the pool element of index i: non-null, offset i, aligned. -/
def CRCBPtr.ofIdx (i : Nat) : CRCBPtr := ⟨false, (i : Int), true⟩

/-- The fixed-capacity free-list allocator of control blocks (CRCBPool).
The backing std::array is the list pool (its length is the template
parameter POOL_SIZE); _pool_head holds the index of the head of the free
list, none for null. -/
structure CRCBPool where
  pool : List ComponentReferenceControlBlock
  poolHead : Option Nat
deriving DecidableEq, Repr

namespace CRCBPool

/-- IsPointerValid: not null, offset within [0, POOL_SIZE), and slot-aligned. -/
def IsPointerValid (p : CRCBPool) (ptr : CRCBPtr) : Bool :=
  !(ptr.isNull ||
    (decide (ptr.offset < 0) || decide ((p.pool.length : Int) ≤ ptr.offset)) ||
    !ptr.aligned)

/-- Allocate: requires num_objects = 1, pops the head of the free list;
fails when the free list is empty. -/
def Allocate (p : CRCBPool) (num_objects : Nat) :
    Except PoolError (CRCBPool × Nat) :=
  if num_objects ≠ 1 then .error .badObjectCount
  else
    match p.poolHead with
    | none => .error .poolExhausted
    | some item =>
      .ok ({ p with poolHead := (p.pool.getD item default).next }, item)

/-- Deallocate: requires num_objects = 1 and a valid pointer, then pushes
the block back onto the free list. -/
def Deallocate (p : CRCBPool) (ptr : CRCBPtr) (num_objects : Nat) :
    Except PoolError CRCBPool :=
  if num_objects ≠ 1 then .error .badObjectCount
  else if !(p.IsPointerValid ptr) then .error .invalidPointer
  else
    let i := ptr.offset.toNat
    .ok { pool := p.pool.set i { (p.pool.getD i default) with next := p.poolHead },
          poolHead := some i }

end CRCBPool

/-- A freshly constructed CRCBPool of the given size: every block default
constructed, block i linked to block i+1 (the last block keeps the null
link of its default constructor), head at block 0. -/
def freshCRCBPool (size : Nat) : CRCBPool :=
  { pool := (List.range size).map (fun i =>
      if i + 1 < size then
        { ComponentReferenceControlBlock.init with next := some (i + 1) }
      else ComponentReferenceControlBlock.init),
    poolHead := some 0 }

/-- A component reference (handle): a control block pointer (none for
null) and the garbage tag captured when the reference was produced. -/
structure ComponentReference where
  context : Option Nat
  controlBlockTag : Nat
deriving DecidableEq, Repr

/-- The maximum number of components a pool allows for. -/
def MAX_COMPONENTS : Nat := 1000

/-- The component store (ComponentPool): the control-block pool, the
component array (one Nat identity per slot), the control table mapping a
slot to its control block (none models the uninitialized garbage of a
never-written entry), the pending-changes list head, and the two
partition counters. -/
structure ComponentPool where
  controlBlockPool : CRCBPool
  components : List Nat
  controlTable : List (Option Nat)
  pendingHead : Option Nat
  numActive : Nat
  numSleeping : Nat
deriving DecidableEq, Repr

namespace ComponentPool

/-- Count: the number of components in the pool. -/
def Count (s : ComponentPool) : Nat := s.numActive + s.numSleeping

/-- The control block at pool index i (reads the backing array). -/
def block (s : ComponentPool) (i : Nat) : ComponentReferenceControlBlock :=
  s.controlBlockPool.pool.getD i default

/-- Overwrite the control block at pool index i. -/
def setBlock (s : ComponentPool) (i : Nat) (c : ComponentReferenceControlBlock) :
    ComponentPool :=
  { s with controlBlockPool :=
      { s.controlBlockPool with pool := s.controlBlockPool.pool.set i c } }

/-- Update: iterates the active partition [numSleeping, Count) and invokes
each record's per-tick callback; the result lists the identities of the
records whose callback is invoked, in iteration order. -/
def Update (s : ComponentPool) : List Nat :=
  (s.components.take s.Count).drop s.numSleeping

/-- IsValid: a reference is valid while its context pointer is non-null
and the captured tag matches the control block's current garbage tag. -/
def IsValid (s : ComponentPool) (h : ComponentReference) : Bool :=
  match h.context with
  | none => false
  | some c => h.controlBlockTag == (s.block c).tag

/-- Get: validates the reference, then returns the control block's cached
component pointer; fails on a stale or null reference. -/
def Get (s : ComponentPool) (h : ComponentReference) :
    Except PoolError (Option Nat) :=
  if !(s.IsValid h) then .error .invalidHandle
  else
    match h.context with
    | none => .error .invalidHandle
    | some c => .ok (s.block c).component

/-- Create: fails at capacity, allocates a control block, constructs the
record at the append slot, binds the block to it, registers the block in
the control table, bumps the active count and returns a new reference.
The model's record constructor cannot fail, so the construction-failure
rollback path of the source is not exercised. -/
def Create (s : ComponentPool) (id : Nat) :
    Except PoolError (ComponentPool × ComponentReference) :=
  let count := s.Count
  if count = MAX_COMPONENTS then .error .capacityExceeded
  else
    match s.controlBlockPool.Allocate 1 with
    | .error e => .error e
    | .ok (p, control_block) =>
      let comps := s.components.set count id
      let pool2 := p.pool.set control_block
        ((p.pool.getD control_block default).construct count)
      let s' : ComponentPool :=
        { s with
          controlBlockPool := { pool := pool2, poolHead := p.poolHead },
          components := comps,
          controlTable := s.controlTable.set count (some control_block),
          numActive := s.numActive + 1 }
      .ok (s', { context := some control_block,
                 controlBlockTag := (s'.block control_block).tag })

/-- SetActive: validates the reference and its ownership, does nothing
when the component is already in the desired state, otherwise enqueues
the block on the pending-changes list (unless already queued) and records
the desired transition. -/
def SetActive (s : ComponentPool) (h : ComponentReference) (new_active : Bool) :
    Except PoolError ComponentPool :=
  if !(s.IsValid h) then .error .invalidHandle
  else
    match h.context with
    | none => .error .invalidHandle
    | some context =>
      if !(s.controlBlockPool.IsPointerValid (CRCBPtr.ofIdx context)) then
        .error .foreignHandle
      else if new_active == (s.block context).IsComponentActive then .ok s
      else
        let s1 :=
          if (s.block context).IsPendingChanges then s
          else
            { s.setBlock context { s.block context with next := s.pendingHead }
              with pendingHead := some context }
        .ok (s1.setBlock context ((s1.block context).MarkActiveStateChange new_active))

/-- Delete: validates the reference and its ownership, enqueues the block
on the pending-changes list (unless already queued) and marks it for
deletion. -/
def Delete (s : ComponentPool) (h : ComponentReference) :
    Except PoolError ComponentPool :=
  if !(s.IsValid h) then .error .invalidHandle
  else
    match h.context with
    | none => .error .invalidHandle
    | some context =>
      if !(s.controlBlockPool.IsPointerValid (CRCBPtr.ofIdx context)) then
        .error .foreignHandle
      else
        let s1 :=
          if (s.block context).IsPendingChanges then s
          else
            { s.setBlock context { s.block context with next := s.pendingHead }
              with pendingHead := some context }
        .ok (s1.setBlock context ((s1.block context).MarkForDeletion))

/-- SwapComponents: when the two indices differ, swaps the two component
records, the two blocks' cached component pointers, and the two control
table entries.  The source indexes the arrays without bounds checks and
dereferences the control-table entries; an out-of-range index or an
uninitialized table entry is undefined behavior. -/
def SwapComponents (s : ComponentPool) (loc_index target_index : Nat) :
    Except PoolError ComponentPool :=
  if loc_index = target_index then .ok s
  else if s.components.length ≤ loc_index ∨ s.components.length ≤ target_index ∨
          s.controlTable.length ≤ loc_index ∨ s.controlTable.length ≤ target_index then
    .error .undefinedBehavior
  else
    match s.controlTable.getD loc_index none, s.controlTable.getD target_index none with
    | some bl, some bt =>
      if s.controlBlockPool.pool.length ≤ bl ∨ s.controlBlockPool.pool.length ≤ bt then
        .error .undefinedBehavior
      else
        let cl := s.components.getD loc_index 0
        let ct := s.components.getD target_index 0
        let pl := (s.block bl).component
        let pt := (s.block bt).component
        let s1 := s.setBlock bl { s.block bl with component := pt }
        let s2 := s1.setBlock bt { s1.block bt with component := pl }
        .ok { s2 with
              components := (s2.components.set loc_index ct).set target_index cl,
              controlTable := (s2.controlTable.set loc_index (some bt)).set
                target_index (some bl) }
    | _, _ => .error .undefinedBehavior

/-- SetActiveInternal: applies an active-state change for the block at
pool index cb.  Waking swaps the record with the last sleeping slot;
sleeping computes loc_index as the pointer difference from the start of
the active block (a ptrdiff_t, converted to size_t at the call) and swaps
with the boundary slot; the counters and the IS_ACTIVE flag are updated
after the swap. -/
def SetActiveInternal (s : ComponentPool) (cb : Nat) (new_active : Bool) :
    Except PoolError ComponentPool :=
  if new_active == (s.block cb).IsComponentActive then .ok s
  else
    match (s.block cb).component with
    | none => .error .undefinedBehavior
    | some abs =>
      if new_active then
        let loc_index := abs
        let target_index := usub s.numSleeping 1
        match s.SwapComponents loc_index target_index with
        | .error e => .error e
        | .ok s' =>
          let s'' := { s' with numSleeping := usub s'.numSleeping 1,
                               numActive := s'.numActive + 1 }
          .ok (s''.setBlock cb ((s''.block cb).SetComponentActive new_active))
      else
        let loc_index := intToSize ((abs : Int) - (s.numSleeping : Int))
        let target_index := s.numSleeping
        match s.SwapComponents loc_index target_index with
        | .error e => .error e
        | .ok s' =>
          let s'' := { s' with numSleeping := s'.numSleeping + 1,
                               numActive := usub s'.numActive 1 }
          .ok (s''.setBlock cb ((s''.block cb).SetComponentActive new_active))

/-- DeleteInternal: forces the component active, swaps it with the last
slot of the awake block, runs its destructor (no observable effect on the
model's record value) and decrements the active count. -/
def DeleteInternal (s : ComponentPool) (cb : Nat) : Except PoolError ComponentPool :=
  match s.SetActiveInternal cb true with
  | .error e => .error e
  | .ok s1 =>
    match (s1.block cb).component with
    | none => .error .undefinedBehavior
    | some abs =>
      let target_index := usub s1.Count 1
      match s1.SwapComponents abs target_index with
      | .error e => .error e
      | .ok s2 => .ok { s2 with numActive := usub s2.numActive 1 }

/-- One iteration of the LateUpdate drain, for the dequeued block at pool
index control (the list head has already been advanced): deletion
dominates, otherwise a pending active-state change is applied and the
pending flags cleared, otherwise nothing happens. -/
def LateUpdateStep (s : ComponentPool) (control : Nat) :
    Except PoolError ComponentPool :=
  if (s.block control).IsPendingDeletion then
    match s.DeleteInternal control with
    | .error e => .error e
    | .ok s1 =>
      let s2 := s1.setBlock control ((s1.block control).destruct)
      match s2.controlBlockPool.Deallocate (CRCBPtr.ofIdx control) 1 with
      | .error e => .error e
      | .ok p => .ok { s2 with controlBlockPool := p }
  else if (s.block control).IsPendingActiveStateChange then
    match s.SetActiveInternal control ((s.block control).GetPendingActiveStateChange) with
    | .error e => .error e
    | .ok s1 => .ok (s1.setBlock control ((s1.block control).ClearPendingChanges))
  else .ok s

/-- The LateUpdate drain on fuel, also returning the pool indices of the
dequeued blocks in processing order.  The source's while loop has no
fuel; fuel exhaustion marks a drain that would not have terminated within
the given bound. -/
def LateUpdateAuxT : Nat → ComponentPool → Except PoolError (ComponentPool × List Nat)
  | 0, s =>
    match s.pendingHead with
    | none => .ok (s, [])
    | some _ => .error .nonTermination
  | fuel + 1, s =>
    match s.pendingHead with
    | none => .ok (s, [])
    | some control =>
      let s0 := { s with pendingHead := (s.block control).next }
      match s0.LateUpdateStep control with
      | .error e => .error e
      | .ok s1 =>
        match LateUpdateAuxT fuel s1 with
        | .error e => .error e
        | .ok (s2, rest) => .ok (s2, control :: rest)

/-- LateUpdate with its processing trace, run with enough fuel for any
well-formed pending list (at most MAX_COMPONENTS queued blocks). -/
def LateUpdateT (s : ComponentPool) : Except PoolError (ComponentPool × List Nat) :=
  LateUpdateAuxT (MAX_COMPONENTS + 1) s

/-- LateUpdate: applies the pending changes, draining the list one entry
at a time. -/
def LateUpdate (s : ComponentPool) : Except PoolError ComponentPool :=
  (s.LateUpdateT).map Prod.fst

end ComponentPool

/-- A freshly constructed ComponentPool: fresh block pool, default-valued
component array, uninitialized control table, no pending changes, no
components. -/
def freshComponentPool : ComponentPool :=
  { controlBlockPool := freshCRCBPool MAX_COMPONENTS,
    components := List.replicate MAX_COMPONENTS 0,
    controlTable := List.replicate MAX_COMPONENTS none,
    pendingHead := none,
    numActive := 0,
    numSleeping := 0 }

/-- A call a test driver can make against the store.  Handles are named
by their position in the list of references returned by the successful
creates so far. -/
inductive Op where
  | create (id : Nat)
  | setActive (h : Nat) (active : Bool)
  | delete (h : Nat)
  | update
  | lateUpdate
deriving DecidableEq, Repr

/-- A driver state: the store plus the references returned by Create, in
creation order. -/
structure RunState where
  pool : ComponentPool
  handles : List ComponentReference
deriving DecidableEq, Repr

/-- The fresh driver state. -/
def freshRun : RunState := ⟨freshComponentPool, []⟩

/-- Run one driver call; a thrown error propagates. -/
def runOp (r : RunState) : Op → Except PoolError RunState
  | .create id =>
    match r.pool.Create id with
    | .error e => .error e
    | .ok (p, h) => .ok ⟨p, r.handles ++ [h]⟩
  | .setActive h b =>
    match r.pool.SetActive (r.handles.getD h ⟨none, 0⟩) b with
    | .error e => .error e
    | .ok p => .ok ⟨p, r.handles⟩
  | .delete h =>
    match r.pool.Delete (r.handles.getD h ⟨none, 0⟩) with
    | .error e => .error e
    | .ok p => .ok ⟨p, r.handles⟩
  | .update => .ok r
  | .lateUpdate =>
    match r.pool.LateUpdate with
    | .error e => .error e
    | .ok p => .ok ⟨p, r.handles⟩

/-- Run a sequence of driver calls. -/
def runOps (r : RunState) : List Op → Except PoolError RunState
  | [] => .ok r
  | op :: rest =>
    match runOp r op with
    | .error e => .error e
    | .ok r' => runOps r' rest

/-- Two control blocks that agree on every field except possibly the
cached component pointer. -/
def agreesExceptComponent (c c' : ComponentReferenceControlBlock) : Prop :=
  c'.next = c.next ∧ c'.tag = c.tag ∧ c'.isActive = c.isActive ∧
  c'.pendingActive = c.pendingActive ∧ c'.pendingSleep = c.pendingSleep ∧
  c'.pendingDelete = c.pendingDelete

/-- One caller-visible step of the store: a successful Create, SetActive,
Delete or LateUpdate, or an Update tick (which does not change the
store). -/
inductive PoolStep : ComponentPool → ComponentPool → Prop
  | create (s s' : ComponentPool) (id : Nat) (h : ComponentReference) :
      s.Create id = .ok (s', h) → PoolStep s s'
  | setActive (s s' : ComponentPool) (h : ComponentReference) (b : Bool) :
      s.SetActive h b = .ok s' → PoolStep s s'
  | del (s s' : ComponentPool) (h : ComponentReference) :
      s.Delete h = .ok s' → PoolStep s s'
  | update (s : ComponentPool) : PoolStep s s
  | lateUpdate (s s' : ComponentPool) : s.LateUpdate = .ok s' → PoolStep s s'

/-- Steps of the store that cannot be a Delete of the record owned by
block cb (Delete of any other reference is allowed). -/
inductive SafeStep (cb : Nat) : ComponentPool → ComponentPool → Prop
  | create (s s' : ComponentPool) (id : Nat) (h : ComponentReference) :
      s.Create id = .ok (s', h) → SafeStep cb s s'
  | setActive (s s' : ComponentPool) (h : ComponentReference) (b : Bool) :
      s.SetActive h b = .ok s' → SafeStep cb s s'
  | del (s s' : ComponentPool) (h : ComponentReference) :
      h.context ≠ some cb → s.Delete h = .ok s' → SafeStep cb s s'
  | update (s : ComponentPool) : SafeStep cb s s
  | lateUpdate (s s' : ComponentPool) : s.LateUpdate = .ok s' → SafeStep cb s s'

/-- A small concrete store for witnesses: two control blocks, both free
(block 0 linked to block 1), an empty component array of extent 2. -/
def witnessEmptyStore : ComponentPool :=
  { controlBlockPool :=
      { pool := [{ ComponentReferenceControlBlock.init with next := some 1 },
                 ComponentReferenceControlBlock.init],
        poolHead := some 0 },
    components := [0, 0],
    controlTable := [none, none],
    pendingHead := none,
    numActive := 0,
    numSleeping := 0 }

/-- The store and reference produced by one Create on the witness store. -/
def witnessCreateOut : ComponentPool × ComponentReference :=
  match witnessEmptyStore.Create 5 with
  | .ok v => v
  | .error _ => (witnessEmptyStore, { context := none, controlBlockTag := 0 })

/-- A junk store whose record count equals the capacity. -/
def witnessFullStore : ComponentPool :=
  { controlBlockPool := { pool := [], poolHead := none },
    components := [],
    controlTable := [],
    pendingHead := none,
    numActive := MAX_COMPONENTS,
    numSleeping := 0 }

/-- A small concrete store with one live record in slot 0 owned by
block 0 (tag 0, active), block 1 free. -/
def c3Store : ComponentPool :=
  { controlBlockPool :=
      { pool := [{ next := none, component := some 0, tag := 0, isActive := true,
                   pendingActive := false, pendingSleep := false, pendingDelete := false },
                 ComponentReferenceControlBlock.init],
        poolHead := some 1 },
    components := [7, 0],
    controlTable := [some 0, none],
    pendingHead := none,
    numActive := 1,
    numSleeping := 0 }

/-- The reference held on c3Store's record. -/
def c3Ref : ComponentReference := { context := some 0, controlBlockTag := 0 }

/-- c3Store after Delete of the reference. -/
def c3AfterDelete : ComponentPool :=
  match c3Store.Delete c3Ref with
  | .ok v => v
  | .error _ => c3Store

/-- c3AfterDelete after the checkpoint. -/
def c3AfterCheckpoint : ComponentPool :=
  match c3AfterDelete.LateUpdate with
  | .ok v => v
  | .error _ => c3AfterDelete

/-- A new record created after the checkpoint (it reuses block 0). -/
def c3AfterCreate : ComponentPool × ComponentReference :=
  match c3AfterCheckpoint.Create 9 with
  | .ok v => v
  | .error _ => (c3AfterCheckpoint, { context := none, controlBlockTag := 0 })

/-- The concrete C5 store: block 0 owns the sleeping record in slot 0 and
has both a pending wake and a pending deletion; it is the single entry of
the pending list. -/
def c5Store : ComponentPool :=
  { controlBlockPool :=
      { pool := [{ next := none, component := some 0, tag := 0, isActive := false,
                   pendingActive := true, pendingSleep := false, pendingDelete := true },
                 ComponentReferenceControlBlock.init],
        poolHead := some 1 },
    components := [7, 0],
    controlTable := [some 0, none],
    pendingHead := some 0,
    numActive := 0,
    numSleeping := 1 }

/-- The reference held on c5Store's record. -/
def c5Ref : ComponentReference := { context := some 0, controlBlockTag := 0 }

/-- c5Store after the checkpoint. -/
def c5AfterCheckpoint : ComponentPool :=
  match c5Store.LateUpdate with
  | .ok v => v
  | .error _ => c5Store

/-- The concrete C10 store: block 0 owns the active record in slot 0 and
has a queued sleep request; it is the single entry of the pending list. -/
def c10Store : ComponentPool :=
  { controlBlockPool :=
      { pool := [{ next := none, component := some 0, tag := 0, isActive := true,
                   pendingActive := false, pendingSleep := true, pendingDelete := false },
                 ComponentReferenceControlBlock.init],
        poolHead := some 1 },
    components := [7, 0],
    controlTable := [some 0, none],
    pendingHead := some 0,
    numActive := 1,
    numSleeping := 0 }

/-- The reference held on c10Store's record. -/
def c10Ref : ComponentReference := { context := some 0, controlBlockTag := 0 }

/-- c10Store after the checkpoint. -/
def c10AfterCheckpoint : ComponentPool :=
  match c10Store.LateUpdate with
  | .ok v => v
  | .error _ => c10Store

/-- The pending-changes list, as threaded through the blocks' intrusive
next links: ChainIs blocks head L holds when following the links from
head visits exactly the blocks of L, in order, ending at a null link. -/
inductive ChainIs (blocks : List ComponentReferenceControlBlock) :
    Option Nat → List Nat → Prop
  | nil : ChainIs blocks none []
  | cons (i : Nat) (rest : List Nat) (hlen : i < blocks.length)
      (htail : ChainIs blocks ((blocks.getD i default).next) rest) :
      ChainIs blocks (some i) (i :: rest)

/-- The concrete C7 store: blocks 1 and 0 queued in that order (block 1
pushed last, at the head). -/
def c7Store : ComponentPool :=
  { controlBlockPool :=
      { pool := [{ next := none, component := some 0, tag := 0, isActive := true,
                   pendingActive := false, pendingSleep := false, pendingDelete := false },
                 { next := some 0, component := some 1, tag := 0, isActive := true,
                   pendingActive := false, pendingSleep := false, pendingDelete := false }],
        poolHead := none },
    components := [7, 8],
    controlTable := [some 0, some 1],
    pendingHead := some 1,
    numActive := 2,
    numSleeping := 0 }

/-- The drain of c7Store with its processing order. -/
def c7Drained : ComponentPool × List Nat :=
  match c7Store.LateUpdateT with
  | .ok v => v
  | .error _ => (c7Store, [])

/-- The C1 driver trace: create three records r1, r2, r3 (identities
1, 2, 3), put r1 to sleep at a checkpoint, then put r3 to sleep at a
second checkpoint while another record is already sleeping. -/
def c1Trace : List Op :=
  [.create 1, .create 2, .create 3, .setActive 0 false, .lateUpdate,
   .setActive 2 false, .lateUpdate]

/-- The store reached by the C1 trace. -/
def c1Pool : ComponentPool :=
  match runOps freshRun c1Trace with
  | .ok r => r.pool
  | .error _ => freshComponentPool

/-- Whether the C1 trace runs without error. -/
def c1TraceOk : Bool :=
  match runOps freshRun c1Trace with
  | .ok _ => true
  | .error _ => false

/-- The C2 driver trace: the C1 trace followed by putting r2 (an
active-flagged record lying inside the sleeping region after the C1
corruption) to sleep at a third checkpoint. -/
def c2Trace : List Op :=
  c1Trace ++ [.setActive 1 false, .lateUpdate]

/-
Helper lemmas: list reads and writes, size_t arithmetic, and the
interaction of block reads with block writes.
-/

/-- Reading a just-written in-range cell returns the written value. -/
theorem listGetD_set_self {α : Type} (l : List α) (i : Nat) (a d : α)
    (h : i < l.length) : (l.set i a).getD i d = a := by
  induction l generalizing i with
  | nil => simp at h
  | cons x xs ih =>
    cases i with
    | zero => simp [List.getD]
    | succ n =>
      simp only [List.set, List.getD, List.get?] at *
      exact ih n (by simpa using h)

/-- Reading a different cell is unaffected by a write. -/
theorem listGetD_set_ne {α : Type} (l : List α) (i j : Nat) (a d : α)
    (h : i ≠ j) : (l.set i a).getD j d = l.getD j d := by
  induction l generalizing i j with
  | nil => simp
  | cons x xs ih =>
    cases i with
    | zero =>
      cases j with
      | zero => exact absurd rfl h
      | succ m => simp [List.getD]
    | succ n =>
      cases j with
      | zero => simp [List.getD]
      | succ m =>
        simp only [List.set, List.getD, List.get?]
        exact ih n m (by omega)

/-- Reading past the end of a list returns the fallback. -/
theorem listGetD_of_len_le {α : Type} (l : List α) (i : Nat) (d : α)
    (h : l.length ≤ i) : l.getD i d = d := by
  induction l generalizing i with
  | nil => simp [List.getD]
  | cons x xs ih =>
    cases i with
    | zero => simp at h
    | succ n => simpa [List.getD] using ih n (by simpa using h)

/-- Writing past the end of a list does nothing. -/
theorem listSet_of_len_le {α : Type} (l : List α) (i : Nat) (a : α)
    (h : l.length ≤ i) : l.set i a = l := by
  induction l generalizing i with
  | nil => simp
  | cons x xs ih =>
    cases i with
    | zero => simp at h
    | succ n => simp [List.set, ih n (by simpa using h)]

/-- Wrapped size_t subtraction agrees with Nat subtraction below the
wrap-around point. -/
theorem usub_eq_sub {a b : Nat} (hba : b ≤ a) (ha : a < SIZE_MOD) :
    usub a b = a - b := by
  have h1 : (a : Int) - (b : Int) = ((a - b : Nat) : Int) := by
    omega
  have h2 : ((a - b : Nat) : Int).emod ((SIZE_MOD : Nat) : Int) = ((a - b : Nat) : Int) := by
    apply Int.emod_eq_of_lt
    · omega
    · omega
  simp only [usub, intToSize, h1]
  rw [h2]
  omega

/-- The component store's block read after a block write. -/
theorem block_setBlock (s : ComponentPool) (i j : Nat)
    (c : ComponentReferenceControlBlock) :
    (s.setBlock i c).block j =
      if i = j ∧ i < s.controlBlockPool.pool.length then c else s.block j := by
  by_cases hij : i = j
  · subst hij
    by_cases hlen : i < s.controlBlockPool.pool.length
    · simp [ComponentPool.setBlock, ComponentPool.block, hlen,
        listGetD_set_self _ _ _ _ hlen]
    · have hle : s.controlBlockPool.pool.length ≤ i := Nat.le_of_not_lt hlen
      simp [ComponentPool.setBlock, ComponentPool.block, hlen,
        listSet_of_len_le s.controlBlockPool.pool i c hle]
  · simp [ComponentPool.setBlock, ComponentPool.block, hij,
      listGetD_set_ne _ _ _ _ _ hij]

/-- A block write touches no other field of the store. -/
theorem setBlock_fields (s : ComponentPool) (i : Nat)
    (c : ComponentReferenceControlBlock) :
    (s.setBlock i c).components = s.components ∧
    (s.setBlock i c).controlTable = s.controlTable ∧
    (s.setBlock i c).pendingHead = s.pendingHead ∧
    (s.setBlock i c).numActive = s.numActive ∧
    (s.setBlock i c).numSleeping = s.numSleeping ∧
    (s.setBlock i c).controlBlockPool.poolHead = s.controlBlockPool.poolHead ∧
    (s.setBlock i c).controlBlockPool.pool.length = s.controlBlockPool.pool.length := by
  simp [ComponentPool.setBlock]

theorem agreesExceptComponent.refl (c : ComponentReferenceControlBlock) :
    agreesExceptComponent c c :=
  ⟨rfl, rfl, rfl, rfl, rfl, rfl⟩

theorem agreesExceptComponent.trans {a b c : ComponentReferenceControlBlock}
    (h1 : agreesExceptComponent a b) (h2 : agreesExceptComponent b c) :
    agreesExceptComponent a c := by
  obtain ⟨x1, x2, x3, x4, x5, x6⟩ := h1
  obtain ⟨y1, y2, y3, y4, y5, y6⟩ := h2
  exact ⟨y1.trans x1, y2.trans x2, y3.trans x3, y4.trans x4, y5.trans x5, y6.trans x6⟩

/-- Replacing a block with one that agrees on all fields except the
component pointer preserves that agreement at every index. -/
theorem agrees_setBlock (s : ComponentPool) (i : Nat)
    (c : ComponentReferenceControlBlock)
    (hc : agreesExceptComponent (s.block i) c) (j : Nat) :
    agreesExceptComponent (s.block j) ((s.setBlock i c).block j) := by
  rw [block_setBlock]
  split
  · next hcond => exact hcond.1 ▸ hc
  · exact agreesExceptComponent.refl _

/-- A successful SwapComponents changes only component records, control
table entries and cached component pointers: the list head fields, the
counters, the array extents and every block's link, tag and flags are
unchanged. -/
theorem swap_frame {s : ComponentPool} {l t : Nat} {s' : ComponentPool}
    (h : s.SwapComponents l t = .ok s') :
    s'.pendingHead = s.pendingHead ∧
    s'.controlBlockPool.poolHead = s.controlBlockPool.poolHead ∧
    s'.numActive = s.numActive ∧ s'.numSleeping = s.numSleeping ∧
    s'.controlBlockPool.pool.length = s.controlBlockPool.pool.length ∧
    s'.components.length = s.components.length ∧
    s'.controlTable.length = s.controlTable.length ∧
    ∀ j, agreesExceptComponent (s.block j) (s'.block j) := by
  unfold ComponentPool.SwapComponents at h
  split at h
  · cases h
    exact ⟨rfl, rfl, rfl, rfl, rfl, rfl, rfl, fun j => agreesExceptComponent.refl _⟩
  · split at h
    · exact absurd h (by simp)
    · split at h
      next bl bt hl ht =>
        split at h
        · exact absurd h (by simp)
        · next hble =>
          have hbl : bl < s.controlBlockPool.pool.length := by omega
          have hbt : bt < s.controlBlockPool.pool.length := by omega
          cases h
          refine ⟨rfl, rfl, rfl, rfl, by simp [ComponentPool.setBlock, List.length_set],
            by simp [ComponentPool.setBlock, List.length_set],
            by simp [ComponentPool.setBlock, List.length_set], fun j => ?_⟩
          exact agreesExceptComponent.trans
            (agrees_setBlock s bl _ (by simp [agreesExceptComponent]) j)
            (agrees_setBlock _ bt _ (by simp [agreesExceptComponent]) j)
      next => exact absurd h (by simp)

/-- Fields of a control block other than the component pointer and the
IS_ACTIVE flag, preserved pointwise by SetActiveInternal and
DeleteInternal. -/
theorem sai_frame {s : ComponentPool} {cb : Nat} {b : Bool} {s' : ComponentPool}
    (h : s.SetActiveInternal cb b = .ok s') :
    s'.pendingHead = s.pendingHead ∧
    s'.controlBlockPool.poolHead = s.controlBlockPool.poolHead ∧
    s'.controlBlockPool.pool.length = s.controlBlockPool.pool.length ∧
    s'.components.length = s.components.length ∧
    s'.controlTable.length = s.controlTable.length ∧
    (∀ j, (s'.block j).next = (s.block j).next ∧ (s'.block j).tag = (s.block j).tag ∧
      (s'.block j).pendingActive = (s.block j).pendingActive ∧
      (s'.block j).pendingSleep = (s.block j).pendingSleep ∧
      (s'.block j).pendingDelete = (s.block j).pendingDelete) ∧
    (∀ j, j ≠ cb → (s'.block j).isActive = (s.block j).isActive) := by
  unfold ComponentPool.SetActiveInternal at h
  split at h
  · cases h
    exact ⟨rfl, rfl, rfl, rfl, rfl, fun j => ⟨rfl, rfl, rfl, rfl, rfl⟩, fun j _ => rfl⟩
  · split at h
    · exact absurd h (by simp)
    · next abs heqc =>
      split at h
      all_goals {
        dsimp only at h
        split at h
        · exact absurd h (by simp)
        · next s1 hswap =>
          obtain ⟨e1, e2, e3, e4, e5, e6, e7, hag⟩ := swap_frame hswap
          cases h
          refine ⟨?_, ?_, ?_, ?_, ?_, fun j => ?_, fun j hj => ?_⟩
          · simpa [ComponentPool.setBlock] using e1
          · simpa [ComponentPool.setBlock] using e2
          · simpa [ComponentPool.setBlock] using e5
          · simpa [ComponentPool.setBlock] using e6
          · simpa [ComponentPool.setBlock] using e7
          · have hagj := hag j
            have hagcb := hag cb
            obtain ⟨a1, a2, a3, a4, a5, a6⟩ := hagj
            obtain ⟨b1, b2, b3, b4, b5, b6⟩ := hagcb
            rw [block_setBlock]
            split
            · next hcond =>
              obtain ⟨rfl, _⟩ := hcond
              exact ⟨b1, b2, b4, b5, b6⟩
            · exact ⟨a1, a2, a4, a5, a6⟩
          · obtain ⟨a1, a2, a3, a4, a5, a6⟩ := hag j
            rw [block_setBlock]
            split
            · next hcond => exact absurd hcond.1 (by omega)
            · exact a3
      }

/-- DeleteInternal changes no list head, no array extent, no block link,
tag or pending flag, and no IS_ACTIVE flag of a block other than the
processed one. -/
theorem di_frame {s : ComponentPool} {cb : Nat} {s' : ComponentPool}
    (h : s.DeleteInternal cb = .ok s') :
    s'.pendingHead = s.pendingHead ∧
    s'.controlBlockPool.poolHead = s.controlBlockPool.poolHead ∧
    s'.controlBlockPool.pool.length = s.controlBlockPool.pool.length ∧
    s'.components.length = s.components.length ∧
    s'.controlTable.length = s.controlTable.length ∧
    (∀ j, (s'.block j).next = (s.block j).next ∧ (s'.block j).tag = (s.block j).tag ∧
      (s'.block j).pendingActive = (s.block j).pendingActive ∧
      (s'.block j).pendingSleep = (s.block j).pendingSleep ∧
      (s'.block j).pendingDelete = (s.block j).pendingDelete) ∧
    (∀ j, j ≠ cb → (s'.block j).isActive = (s.block j).isActive) := by
  unfold ComponentPool.DeleteInternal at h
  split at h
  · exact absurd h (by simp)
  · next s1 hsai =>
    obtain ⟨p1, p2, p3, p4, p5, hsk, hact⟩ := sai_frame hsai
    split at h
    · exact absurd h (by simp)
    · next abs heqc =>
      dsimp only at h
      split at h
      · exact absurd h (by simp)
      · next s2 hswap =>
        obtain ⟨q1, q2, q3, q4, q5, q6, q7, hag⟩ := swap_frame hswap
        cases h
        refine ⟨q1.trans p1, q2.trans p2, q5.trans p3, q6.trans p4, q7.trans p5,
          fun j => ?_, fun j hj => ?_⟩
        · obtain ⟨a1, a2, a3, a4, a5, a6⟩ := hag j
          obtain ⟨b1, b2, b3, b4, b5⟩ := hsk j
          exact ⟨a1.trans b1, a2.trans b2, a4.trans b3, a5.trans b4, a6.trans b5⟩
        · obtain ⟨a1, a2, a3, a4, a5, a6⟩ := hag j
          exact a3.trans (hact j hj)

/-- Pointer validity of an index-pointer is exactly the bounds check. -/
theorem isPointerValid_ofIdx (p : CRCBPool) (i : Nat) :
    p.IsPointerValid (CRCBPtr.ofIdx i) = decide (i < p.pool.length) := by
  simp only [CRCBPool.IsPointerValid, CRCBPtr.ofIdx]
  by_cases hi : i < p.pool.length
  · simp [hi]
  · simp [hi]
    omega

/-- Inversion of a successful Deallocate of an index-pointer. -/
theorem dealloc_ofIdx_ok {p : CRCBPool} {i : Nat} {p' : CRCBPool}
    (h : p.Deallocate (CRCBPtr.ofIdx i) 1 = .ok p') :
    i < p.pool.length ∧
    p' = ⟨p.pool.set i { (p.pool.getD i default) with next := p.poolHead }, some i⟩ := by
  unfold CRCBPool.Deallocate at h
  rw [if_neg (by decide)] at h
  split at h
  · exact absurd h (by simp)
  · next hvalid =>
    rw [isPointerValid_ofIdx] at hvalid
    have hlen : i < p.pool.length := by
      by_contra hle
      simp [hle] at hvalid
    cases h
    constructor
    · exact hlen
    · simp [CRCBPtr.ofIdx]

/-- Unfolding of the block read. -/
theorem block_def (s : ComponentPool) (j : Nat) :
    s.block j = s.controlBlockPool.pool.getD j default := rfl

/-- One drain iteration leaves the pending head, the array extents, and
every other block's link, tag and flags unchanged. -/
theorem step_frame {s : ComponentPool} {control : Nat} {s' : ComponentPool}
    (h : s.LateUpdateStep control = .ok s') :
    s'.pendingHead = s.pendingHead ∧
    s'.controlBlockPool.pool.length = s.controlBlockPool.pool.length ∧
    s'.components.length = s.components.length ∧
    s'.controlTable.length = s.controlTable.length ∧
    ∀ j, j ≠ control → (s'.block j).next = (s.block j).next ∧
      (s'.block j).tag = (s.block j).tag ∧
      (s'.block j).isActive = (s.block j).isActive ∧
      (s'.block j).pendingActive = (s.block j).pendingActive ∧
      (s'.block j).pendingSleep = (s.block j).pendingSleep ∧
      (s'.block j).pendingDelete = (s.block j).pendingDelete := by
  unfold ComponentPool.LateUpdateStep at h
  split at h
  · split at h
    · exact absurd h (by simp)
    · next s1 hdi =>
      dsimp only at h
      split at h
      · exact absurd h (by simp)
      · next p hdeal =>
        obtain ⟨d1, d2, d3, d4, d5, hsk, hact⟩ := di_frame hdi
        obtain ⟨hlen, rfl⟩ := dealloc_ofIdx_ok hdeal
        cases h
        refine ⟨by simpa [ComponentPool.setBlock] using d1,
          by simp [ComponentPool.setBlock, List.length_set, d3],
          by simpa [ComponentPool.setBlock] using d4,
          by simpa [ComponentPool.setBlock] using d5, fun j hj => ?_⟩
        obtain ⟨a1, a2, a3, a4, a5⟩ := hsk j
        simp only [block_def, ComponentPool.setBlock]
        rw [listGetD_set_ne _ _ _ _ _ (Ne.symm hj), listGetD_set_ne _ _ _ _ _ (Ne.symm hj)]
        exact ⟨a1, a2, hact j hj, a3, a4, a5⟩
  · split at h
    · split at h
      · exact absurd h (by simp)
      · next s1 hsai =>
        obtain ⟨p1, p2, p3, p4, p5, hsk, hact⟩ := sai_frame hsai
        cases h
        refine ⟨by simpa [ComponentPool.setBlock] using p1,
          by simp [ComponentPool.setBlock, List.length_set, p3],
          by simpa [ComponentPool.setBlock] using p4,
          by simpa [ComponentPool.setBlock] using p5, fun j hj => ?_⟩
        rw [block_setBlock]
        rw [if_neg (by exact fun hc => hj (hc.1.symm))]
        obtain ⟨a1, a2, a3, a4, a5⟩ := hsk j
        exact ⟨a1, a2, hact j hj, a3, a4, a5⟩
    · cases h
      exact ⟨rfl, rfl, rfl, rfl, fun j _ => ⟨rfl, rfl, rfl, rfl, rfl, rfl⟩⟩

/-- A drain iteration on a block without a pending deletion preserves
every block's tag and pending-delete flag. -/
theorem step_tag {s : ComponentPool} {control : Nat} {s' : ComponentPool}
    (h : s.LateUpdateStep control = .ok s')
    (hpd : (s.block control).pendingDelete = false) :
    ∀ j, (s'.block j).tag = (s.block j).tag ∧
      (s'.block j).pendingDelete = (s.block j).pendingDelete := by
  unfold ComponentPool.LateUpdateStep at h
  rw [if_neg (by simp [ComponentReferenceControlBlock.IsPendingDeletion, hpd])] at h
  split at h
  · split at h
    · exact absurd h (by simp)
    · next s1 hsai =>
      obtain ⟨p1, p2, p3, p4, p5, hsk, hact⟩ := sai_frame hsai
      cases h
      intro j
      obtain ⟨a1, a2, a3, a4, a5⟩ := hsk j
      rw [block_setBlock]
      split
      · next hcond =>
        obtain ⟨he, _⟩ := hcond
        subst he
        refine ⟨a2, ?_⟩
        simp only [ComponentReferenceControlBlock.ClearPendingChanges]
        rw [hpd]
      · exact ⟨a2, a5⟩
  · cases h
    exact fun j => ⟨rfl, rfl⟩

/-- A drain iteration changes the processed block's tag by zero or one. -/
theorem step_control_tag {s : ComponentPool} {control : Nat} {s' : ComponentPool}
    (h : s.LateUpdateStep control = .ok s') :
    (s'.block control).tag = (s.block control).tag ∨
    (s'.block control).tag = (s.block control).tag + 1 := by
  unfold ComponentPool.LateUpdateStep at h
  split at h
  · split at h
    · exact absurd h (by simp)
    · next s1 hdi =>
      dsimp only at h
      split at h
      · exact absurd h (by simp)
      · next p hdeal =>
        obtain ⟨d1, d2, d3, d4, d5, hsk, hact⟩ := di_frame hdi
        obtain ⟨hlen, rfl⟩ := dealloc_ofIdx_ok hdeal
        cases h
        right
        have htag1 : (s1.block control).tag = (s.block control).tag := (hsk control).2.1
        have hlen1 : control < s1.controlBlockPool.pool.length := by
          simpa [ComponentPool.setBlock, List.length_set] using hlen
        simp only [block_def, ComponentPool.setBlock]
        rw [listGetD_set_self _ _ _ _ (by simpa [List.length_set] using hlen1)]
        dsimp only
        rw [listGetD_set_self _ _ _ _ hlen1]
        show ((s1.block control).destruct).tag = (s.block control).tag + 1
        simp [ComponentReferenceControlBlock.destruct, htag1]
  · split at h
    · split at h
      · exact absurd h (by simp)
      · next s1 hsai =>
        obtain ⟨p1, p2, p3, p4, p5, hsk, hact⟩ := sai_frame hsai
        cases h
        left
        rw [block_setBlock]
        split
        · exact (hsk control).2.1
        · exact (hsk control).2.1
    · cases h
      exact Or.inl rfl

/-- Draining the pending list never destroys a block that has no pending
deletion when the drain starts: its tag and clear pending-delete flag
survive the whole drain. -/
theorem drain_tag (fuel : Nat) :
    ∀ {s s' : ComponentPool} {ord : List Nat} {cb : Nat},
    ComponentPool.LateUpdateAuxT fuel s = .ok (s', ord) →
    (s.block cb).pendingDelete = false →
    (s'.block cb).tag = (s.block cb).tag ∧ (s'.block cb).pendingDelete = false := by
  induction fuel with
  | zero =>
    intro s s' ord cb h hpd
    unfold ComponentPool.LateUpdateAuxT at h
    split at h
    · cases h; exact ⟨rfl, hpd⟩
    · exact absurd h (by simp)
  | succ fuel ih =>
    intro s s' ord cb h hpd
    unfold ComponentPool.LateUpdateAuxT at h
    split at h
    · cases h; exact ⟨rfl, hpd⟩
    · next control heq =>
      dsimp only at h
      split at h
      · exact absurd h (by simp)
      · next s1 hstep =>
        rcases hrec : ComponentPool.LateUpdateAuxT fuel s1 with e | pr
        · rw [hrec] at h
          exact absurd h (by simp)
        · obtain ⟨s2, rest⟩ := pr
          rw [hrec] at h
          dsimp only at h
          cases h
          by_cases hc : control = cb
          · subst hc
            obtain ⟨ht, hp⟩ := step_tag hstep hpd control
            obtain ⟨ht2, hp2⟩ := ih hrec (by rw [hp]; exact hpd)
            exact ⟨ht2.trans ht, hp2⟩
          · obtain ⟨f1, f2, f3, f4, ff⟩ := step_frame hstep
            obtain ⟨b1, b2, b3, b4, b5, b6⟩ := ff cb (fun hcc => hc hcc.symm)
            obtain ⟨ht2, hp2⟩ := ih hrec (by rw [b6]; exact hpd)
            exact ⟨ht2.trans b2, hp2⟩

/-- Tags never decrease across a drain. -/
theorem drain_mono (fuel : Nat) :
    ∀ {s s' : ComponentPool} {ord : List Nat} (j : Nat),
    ComponentPool.LateUpdateAuxT fuel s = .ok (s', ord) →
    (s.block j).tag ≤ (s'.block j).tag := by
  induction fuel with
  | zero =>
    intro s s' ord j h
    unfold ComponentPool.LateUpdateAuxT at h
    split at h
    · cases h; exact le_refl _
    · exact absurd h (by simp)
  | succ fuel ih =>
    intro s s' ord j h
    unfold ComponentPool.LateUpdateAuxT at h
    split at h
    · cases h; exact le_refl _
    · next control heq =>
      dsimp only at h
      split at h
      · exact absurd h (by simp)
      · next s1 hstep =>
        rcases hrec : ComponentPool.LateUpdateAuxT fuel s1 with e | pr
        · rw [hrec] at h
          exact absurd h (by simp)
        · obtain ⟨s2, rest⟩ := pr
          rw [hrec] at h
          dsimp only at h
          cases h
          have htail := ih j hrec
          by_cases hc : j = control
          · subst hc
            have hsc := step_control_tag hstep
            have hsc2 : (s1.block j).tag = (s.block j).tag ∨
                (s1.block j).tag = (s.block j).tag + 1 := hsc
            rcases hsc2 with he | he <;> omega
          · obtain ⟨f1, f2, f3, f4, ff⟩ := step_frame hstep
            have b2 := (ff j hc).2.1
            have b2a : (s1.block j).tag = (s.block j).tag := b2
            omega

/-- Inversion of a successful Create: the returned reference wraps the
allocated block with the tag captured after rebinding; no tag changes,
and no pending-delete flag is set by a Create. -/
theorem create_facts {s : ComponentPool} {id : Nat} {s' : ComponentPool}
    {h : ComponentReference} (hcr : s.Create id = .ok (s', h)) :
    ∃ cb, h.context = some cb ∧ h.controlBlockTag = (s'.block cb).tag ∧
      s'.IsValid h = true ∧ (s'.block cb).pendingDelete = false ∧
      (∀ j, (s'.block j).tag = (s.block j).tag) ∧
      (∀ j, (s.block j).pendingDelete = false → (s'.block j).pendingDelete = false) := by
  unfold ComponentPool.Create at hcr
  dsimp only at hcr
  by_cases hfull : s.Count = MAX_COMPONENTS
  · rw [if_pos hfull] at hcr
    exact absurd hcr (by simp)
  · rw [if_neg hfull] at hcr
    rcases halloc : s.controlBlockPool.Allocate 1 with e | pr
    · rw [halloc] at hcr
      exact absurd hcr (by simp)
    · obtain ⟨p, cb⟩ := pr
      rw [halloc] at hcr
      dsimp only at hcr
      unfold CRCBPool.Allocate at halloc
      rw [if_neg (by decide)] at halloc
      split at halloc
      · exact absurd halloc (by simp)
      · next item heq =>
        cases halloc
        cases hcr
        refine ⟨cb, rfl, rfl, ?_, ?_, ?_, ?_⟩
        · simp [ComponentPool.IsValid]
        · show ((s.controlBlockPool.pool.set cb _).getD cb default).pendingDelete = false
          by_cases hlen : cb < s.controlBlockPool.pool.length
          · rw [listGetD_set_self _ _ _ _ hlen]
            rfl
          · rw [listSet_of_len_le _ _ _ (by omega), listGetD_of_len_le _ _ _ (by omega)]
            rfl
        · intro j
          show ((s.controlBlockPool.pool.set cb _).getD j default).tag = (s.block j).tag
          by_cases hj : cb = j
          · subst hj
            by_cases hlen : cb < s.controlBlockPool.pool.length
            · rw [listGetD_set_self _ _ _ _ hlen]
              rfl
            · rw [listSet_of_len_le _ _ _ (by omega)]
              rfl
          · rw [listGetD_set_ne _ _ _ _ _ hj]
            rfl
        · intro j hpd
          show ((s.controlBlockPool.pool.set cb _).getD j default).pendingDelete = false
          by_cases hj : cb = j
          · subst hj
            by_cases hlen : cb < s.controlBlockPool.pool.length
            · rw [listGetD_set_self _ _ _ _ hlen]
              rfl
            · rw [listSet_of_len_le _ _ _ (by omega), listGetD_of_len_le _ _ _ (by omega)]
              rfl
          · rw [listGetD_set_ne _ _ _ _ _ hj]
            exact hpd

/-- MarkActiveStateChange never touches tag, pending-delete, IS_ACTIVE or
the link. -/
theorem mark_active_fields (c : ComponentReferenceControlBlock) (b : Bool) :
    (c.MarkActiveStateChange b).tag = c.tag ∧
    (c.MarkActiveStateChange b).pendingDelete = c.pendingDelete ∧
    (c.MarkActiveStateChange b).isActive = c.isActive ∧
    (c.MarkActiveStateChange b).next = c.next := by
  unfold ComponentReferenceControlBlock.MarkActiveStateChange
  split <;> exact ⟨rfl, rfl, rfl, rfl⟩

/-- Reads of blocks ignore the pending-changes head. -/
theorem block_pendingHead (s : ComponentPool) (ph : Option Nat) (j : Nat) :
    ({ s with pendingHead := ph } : ComponentPool).block j = s.block j := rfl

/-- A successful SetActive request changes no block's tag and no block's
pending-delete flag. -/
theorem setActive_facts {s : ComponentPool} {h : ComponentReference} {b : Bool}
    {s' : ComponentPool} (hsa : s.SetActive h b = .ok s') :
    (∀ j, (s'.block j).tag = (s.block j).tag) ∧
    (∀ j, (s'.block j).pendingDelete = (s.block j).pendingDelete) := by
  unfold ComponentPool.SetActive at hsa
  split at hsa
  · exact absurd hsa (by simp)
  · split at hsa
    · exact absurd hsa (by simp)
    · next context hctxeq =>
      split at hsa
      · exact absurd hsa (by simp)
      · next hptr =>
        have hcb : context < s.controlBlockPool.pool.length := by
          rw [Bool.not_eq_true, isPointerValid_ofIdx] at hptr
          simpa using hptr
        split at hsa
        · cases hsa
          exact ⟨fun j => rfl, fun j => rfl⟩
        · dsimp only at hsa
          by_cases hpend : (s.block context).IsPendingChanges = true
          · rw [if_pos hpend] at hsa
            cases hsa
            refine ⟨fun j => ?_, fun j => ?_⟩ <;>
            · rw [block_setBlock]
              split
              · next hcond =>
                obtain ⟨rfl, _⟩ := hcond
                obtain ⟨m1, m2, m3, m4⟩ := mark_active_fields (s.block context) b
                first
                | exact m1
                | exact m2
              · rfl
          · rw [if_neg hpend] at hsa
            cases hsa
            refine ⟨fun j => ?_, fun j => ?_⟩ <;>
            · rw [block_setBlock]
              split
              · next hcond =>
                obtain ⟨rfl, _⟩ := hcond
                obtain ⟨m1, m2, m3, m4⟩ := mark_active_fields _ b
                refine Eq.trans (by first | exact m1 | exact m2) ?_
                rw [block_pendingHead, block_setBlock, if_pos ⟨rfl, hcb⟩]
              · rw [block_pendingHead, block_setBlock]
                split
                · next hcond2 =>
                  obtain ⟨rfl, _⟩ := hcond2
                  rfl
                · rfl

/-- A successful Delete request changes no block's tag, and no
pending-delete flag of blocks other than its target. -/
theorem delete_facts {s : ComponentPool} {h : ComponentReference}
    {s' : ComponentPool} (hdel : s.Delete h = .ok s') :
    (∀ j, (s'.block j).tag = (s.block j).tag) ∧
    (∀ j, h.context ≠ some j → (s'.block j).pendingDelete = (s.block j).pendingDelete) := by
  unfold ComponentPool.Delete at hdel
  split at hdel
  · exact absurd hdel (by simp)
  · split at hdel
    · exact absurd hdel (by simp)
    · next context hctxeq =>
      split at hdel
      · exact absurd hdel (by simp)
      · next hptr =>
        have hcb : context < s.controlBlockPool.pool.length := by
          rw [Bool.not_eq_true, isPointerValid_ofIdx] at hptr
          simpa using hptr
        dsimp only at hdel
        by_cases hpend : (s.block context).IsPendingChanges = true
        · rw [if_pos hpend] at hdel
          cases hdel
          refine ⟨fun j => ?_, fun j hj => ?_⟩ <;> rw [block_setBlock]
          · split
            · next hcond =>
              obtain ⟨rfl, _⟩ := hcond
              rfl
            · rfl
          · split
            · next hcond =>
              obtain ⟨rfl, _⟩ := hcond
              exact absurd (hctxeq.trans rfl) hj
            · rfl
        · rw [if_neg hpend] at hdel
          cases hdel
          refine ⟨fun j => ?_, fun j hj => ?_⟩ <;> rw [block_setBlock]
          · split
            · next hcond =>
              obtain ⟨rfl, _⟩ := hcond
              refine Eq.trans rfl ?_
              rw [block_pendingHead, block_setBlock, if_pos ⟨rfl, hcb⟩]
              rfl
            · rw [block_pendingHead, block_setBlock]
              split
              · next hcond2 =>
                obtain ⟨rfl, _⟩ := hcond2
                rfl
              · rfl
          · split
            · next hcond =>
              obtain ⟨rfl, _⟩ := hcond
              exact absurd (hctxeq.trans rfl) hj
            · rw [block_pendingHead, block_setBlock]
              split
              · next hcond2 =>
                obtain ⟨rfl, _⟩ := hcond2
                exact absurd (hctxeq.trans rfl) hj
              · rfl

/-- Inversion of a successful Delete of a reference whose block has no
pending changes: the block is pushed at the head of the pending list and
marked for deletion; nothing else changes. -/
theorem delete_result {s : ComponentPool} {h : ComponentReference} {cb : Nat}
    {s' : ComponentPool} (hdel : s.Delete h = .ok s')
    (hctx : h.context = some cb)
    (hnp : (s.block cb).IsPendingChanges = false) :
    cb < s.controlBlockPool.pool.length ∧
    s'.pendingHead = some cb ∧
    s'.block cb = { s.block cb with next := s.pendingHead, pendingDelete := true } ∧
    (∀ j, j ≠ cb → s'.block j = s.block j) ∧
    s'.controlBlockPool.poolHead = s.controlBlockPool.poolHead ∧
    s'.controlBlockPool.pool.length = s.controlBlockPool.pool.length ∧
    s'.components = s.components ∧ s'.controlTable = s.controlTable ∧
    s'.numActive = s.numActive ∧ s'.numSleeping = s.numSleeping := by
  unfold ComponentPool.Delete at hdel
  split at hdel
  · exact absurd hdel (by simp)
  · split at hdel
    · exact absurd hdel (by simp)
    · next context hctxeq =>
      have hceq : context = cb := by
        rw [hctxeq] at hctx
        exact Option.some.inj hctx
      subst hceq
      split at hdel
      · exact absurd hdel (by simp)
      · next hptr =>
        have hcb : context < s.controlBlockPool.pool.length := by
          rw [Bool.not_eq_true, isPointerValid_ofIdx] at hptr
          simpa using hptr
        dsimp only at hdel
        rw [if_neg (by rw [hnp]; simp)] at hdel
        cases hdel
        refine ⟨hcb, rfl, ?_, fun j hj => ?_, ?_, ?_, rfl, rfl, rfl, rfl⟩
        · rw [block_setBlock]
          rw [if_pos ⟨rfl, by simpa [ComponentPool.setBlock] using hcb⟩]
          rw [block_pendingHead, block_setBlock, if_pos ⟨rfl, hcb⟩]
          rfl
        · rw [block_setBlock]
          rw [if_neg (fun hc => hj hc.1.symm)]
          rw [block_pendingHead, block_setBlock]
          rw [if_neg (fun hc => hj hc.1.symm)]
        · simp [ComponentPool.setBlock]
        · simp [ComponentPool.setBlock, List.length_set]

/-- A successful LateUpdate is a successful drain. -/
theorem lateUpdate_ok {s s' : ComponentPool} (h : s.LateUpdate = .ok s') :
    ∃ ord, ComponentPool.LateUpdateAuxT (MAX_COMPONENTS + 1) s = .ok (s', ord) := by
  unfold ComponentPool.LateUpdate ComponentPool.LateUpdateT at h
  rcases he : ComponentPool.LateUpdateAuxT (MAX_COMPONENTS + 1) s with e | pr
  · rw [he] at h
    exact absurd h (by simp [Except.map])
  · obtain ⟨s2, ord⟩ := pr
    rw [he] at h
    have hs2 : s2 = s' := by simpa [Except.map] using h
    subst hs2
    exact ⟨ord, rfl⟩

/-- Garbage tags never decrease across any step of the store. -/
theorem poolStep_tag_mono {s s' : ComponentPool} (h : PoolStep s s') (j : Nat) :
    (s.block j).tag ≤ (s'.block j).tag := by
  cases h with
  | create _ id href hcr =>
    obtain ⟨cb, _, _, _, _, htags, _⟩ := create_facts hcr
    exact le_of_eq (htags j).symm
  | setActive _ href b hsa =>
    exact le_of_eq ((setActive_facts hsa).1 j).symm
  | del _ href hdel =>
    exact le_of_eq ((delete_facts hdel).1 j).symm
  | update => exact le_refl _
  | lateUpdate _ hlu =>
    obtain ⟨ord, haux⟩ := lateUpdate_ok hlu
    exact drain_mono _ j haux

/-- Across any step that does not delete block cb's record, a block whose
deletion is not pending keeps its tag and stays free of pending
deletion. -/
theorem safeStep_tag {cb : Nat} {s s' : ComponentPool} (h : SafeStep cb s s')
    (hpd : (s.block cb).pendingDelete = false) :
    (s'.block cb).tag = (s.block cb).tag ∧ (s'.block cb).pendingDelete = false := by
  cases h with
  | create _ id href hcr =>
    obtain ⟨cb2, _, _, _, _, htags, hpds⟩ := create_facts hcr
    exact ⟨htags cb, hpds cb hpd⟩
  | setActive _ href b hsa =>
    obtain ⟨htags, hpds⟩ := setActive_facts hsa
    exact ⟨htags cb, (hpds cb).trans hpd⟩
  | del _ href hne hdel =>
    obtain ⟨htags, hpds⟩ := delete_facts hdel
    exact ⟨htags cb, (hpds cb hne).trans hpd⟩
  | update => exact ⟨rfl, hpd⟩
  | lateUpdate _ hlu =>
    obtain ⟨ord, haux⟩ := lateUpdate_ok hlu
    exact drain_tag _ haux hpd

/-- Claim C4: with exactly MAX_COMPONENTS = 1000 records in the store, a
further Create fails with the capacity error.  The check precedes every
effect, and in this model a failing Create returns no successor state at
all, so the record array, the control table, the partition counts, the
free list and every control block are exactly those of s. -/
theorem c4_create_at_capacity_fails {s : ComponentPool} {id : Nat}
    (hfull : s.Count = MAX_COMPONENTS) :
    s.Create id = .error .capacityExceeded := by
  unfold ComponentPool.Create
  dsimp only
  rw [if_pos hfull]

/-- Witness for C4 at a concrete full store. -/
theorem c4_create_at_capacity_fails_witness :
    witnessFullStore.Create 0 = .error .capacityExceeded :=
  c4_create_at_capacity_fails (by decide)

/-- Claim C6: a reference returned by Create is valid immediately, and it stays
valid, with its block's generation tag unchanged, across any sequence of
Create, SetActive, Update, LateUpdate and Delete-of-other-record steps:
only deletion of its own record can change the block's generation. -/
theorem c6_created_reference_stays_valid
    {s s' s'' : ComponentPool} {id : Nat} {h : ComponentReference} {cb : Nat}
    (hcr : s.Create id = .ok (s', h)) (hctx : h.context = some cb)
    (hsteps : Relation.ReflTransGen (SafeStep cb) s' s'') :
    s'.IsValid h = true ∧ s''.IsValid h = true ∧
    (s''.block cb).tag = (s'.block cb).tag := by
  obtain ⟨cb2, hctx2, htag, hvalid, hpd, _, _⟩ := create_facts hcr
  have hcbeq : cb2 = cb := by
    rw [hctx2] at hctx
    exact Option.some.inj hctx
  subst hcbeq
  have hinv : ∀ {t : ComponentPool}, Relation.ReflTransGen (SafeStep cb2) s' t →
      (t.block cb2).tag = (s'.block cb2).tag ∧ (t.block cb2).pendingDelete = false := by
    intro t ht
    induction ht with
    | refl => exact ⟨rfl, hpd⟩
    | tail hstep hlast ih =>
      obtain ⟨ih1, ih2⟩ := ih
      obtain ⟨e1, e2⟩ := safeStep_tag hlast ih2
      exact ⟨e1.trans ih1, e2⟩
  obtain ⟨hf1, hf2⟩ := hinv hsteps
  refine ⟨hvalid, ?_, hf1⟩
  unfold ComponentPool.IsValid
  rw [hctx2]
  dsimp only
  rw [hf1, ← htag]
  simp

/-- Witness for C6: a Create on a small store followed by a LateUpdate
step (the reference remains valid and its tag is unchanged). -/
theorem c6_created_reference_stays_valid_witness :
    witnessCreateOut.1.IsValid witnessCreateOut.2 = true ∧
    witnessCreateOut.1.IsValid witnessCreateOut.2 = true ∧
    ((witnessCreateOut.1).block 0).tag = ((witnessCreateOut.1).block 0).tag :=
  @c6_created_reference_stays_valid witnessEmptyStore witnessCreateOut.1
    witnessCreateOut.1 5 witnessCreateOut.2 0 (by decide) (by decide)
    Relation.ReflTransGen.refl

/-- Processing a block marked for deletion destroys it: the tag is
incremented once, the block is unbound and flag-free, and it becomes the
head of the block pool's free list. -/
theorem step_delete_result {s : ComponentPool} {control : Nat} {s' : ComponentPool}
    (hpd : (s.block control).IsPendingDeletion = true)
    (h : s.LateUpdateStep control = .ok s') :
    (s'.block control).tag = (s.block control).tag + 1 ∧
    (s'.block control).component = none ∧
    (s'.block control).isActive = false ∧
    (s'.block control).pendingActive = false ∧
    (s'.block control).pendingSleep = false ∧
    (s'.block control).pendingDelete = false ∧
    s'.controlBlockPool.poolHead = some control ∧
    s'.pendingHead = s.pendingHead := by
  unfold ComponentPool.LateUpdateStep at h
  rw [if_pos hpd] at h
  split at h
  · exact absurd h (by simp)
  · next s1 hdi =>
    dsimp only at h
    split at h
    · exact absurd h (by simp)
    · next p hdeal =>
      obtain ⟨d1, d2, d3, d4, d5, hsk, hact⟩ := di_frame hdi
      obtain ⟨hlen, rfl⟩ := dealloc_ofIdx_ok hdeal
      cases h
      have hlen1 : control < s1.controlBlockPool.pool.length := by
        simpa [ComponentPool.setBlock, List.length_set] using hlen
      have htag1 : (s1.block control).tag = (s.block control).tag := (hsk control).2.1
      refine ⟨?_, ?_, ?_, ?_, ?_, ?_, rfl, by simpa [ComponentPool.setBlock] using d1⟩
      all_goals simp only [block_def, ComponentPool.setBlock]
      all_goals rw [listGetD_set_self _ _ _ _ (by simpa [List.length_set] using hlen1)]
      all_goals dsimp only
      all_goals rw [listGetD_set_self _ _ _ _ hlen1]
      · show ((s1.block control).destruct).tag = (s.block control).tag + 1
        simp [ComponentReferenceControlBlock.destruct, htag1]
      · rfl
      · rfl
      · rfl
      · rfl
      · rfl

/-- Claim C3: deleting a valid reference and running the checkpoint makes the
reference invalid and Get fail with the invalid-handle error; the block's
generation is incremented exactly once by that destruction and rebinding
does not change it, so a reference created afterwards whose record reuses
the same control block is valid and captures a strictly larger
generation. -/
theorem c3_deleted_reference_invalidated
    {s s1 s2 s3 s4 : ComponentPool} {h h2 : ComponentReference} {cb id : Nat}
    (hctx : h.context = some cb)
    (hvalid : s.IsValid h = true)
    (hnp : (s.block cb).IsPendingChanges = false)
    (hdel : s.Delete h = .ok s1)
    (hlu : s1.LateUpdate = .ok s2)
    (hsteps : Relation.ReflTransGen PoolStep s2 s3)
    (hcr : s3.Create id = .ok (s4, h2))
    (hreuse : h2.context = some cb) :
    s2.IsValid h = false ∧ s2.Get h = .error .invalidHandle ∧
    (s2.block cb).tag = (s.block cb).tag + 1 ∧
    (s4.block cb).tag = (s3.block cb).tag ∧
    s4.IsValid h2 = true ∧ h.controlBlockTag < h2.controlBlockTag := by
  have htagh : h.controlBlockTag = (s.block cb).tag := by
    unfold ComponentPool.IsValid at hvalid
    rw [hctx] at hvalid
    dsimp only at hvalid
    simpa using hvalid
  obtain ⟨hcb, hph1, hbcb1, hbo1, _, hplen1, _, _, _, _⟩ := delete_result hdel hctx hnp
  obtain ⟨ord, haux⟩ := lateUpdate_ok hlu
  unfold ComponentPool.LateUpdateAuxT at haux
  rw [hph1] at haux
  dsimp only at haux
  rcases hstep : (({ s1 with pendingHead := (s1.block cb).next } : ComponentPool).LateUpdateStep cb)
    with e | sa
  · rw [hstep] at haux
    exact absurd haux (by simp)
  · rw [hstep] at haux
    dsimp only at haux
    rcases hrest : ComponentPool.LateUpdateAuxT MAX_COMPONENTS sa with e | pr
    · rw [hrest] at haux
      exact absurd haux (by simp)
    · obtain ⟨sf, rest⟩ := pr
      rw [hrest] at haux
      dsimp only at haux
      cases haux
      -- the first processed block is cb, and it is destroyed
      have hpd0 : (({ s1 with pendingHead := (s1.block cb).next } : ComponentPool).block cb).IsPendingDeletion = true := by
        show (s1.block cb).IsPendingDeletion = true
        rw [hbcb1]
        rfl
      obtain ⟨e1, e2, e3, e4, e5, e6, e7, e8⟩ := step_delete_result hpd0 hstep
      have htagsa : (sa.block cb).tag = (s.block cb).tag + 1 := by
        rw [e1]
        show ((s1.block cb).tag) + 1 = (s.block cb).tag + 1
        rw [hbcb1]
      obtain ⟨htagf, hpdf⟩ := drain_tag MAX_COMPONENTS hrest e6
      have htag2 : (s2.block cb).tag = (s.block cb).tag + 1 := htagf.trans htagsa
      have hvalid2 : s2.IsValid h = false := by
        unfold ComponentPool.IsValid
        rw [hctx]
        dsimp only
        rw [htagh, htag2]
        simp
      refine ⟨hvalid2, ?_, htag2, ?_, ?_, ?_⟩
      · unfold ComponentPool.Get
        rw [hvalid2]
        rfl
      · obtain ⟨cb2, hctx2, _, _, _, htags4, _⟩ := create_facts hcr
        have : cb2 = cb := by
          rw [hctx2] at hreuse
          exact Option.some.inj hreuse
        subst this
        exact htags4 _
      · obtain ⟨cb2, hctx2, _, hvalid4, _, _, _⟩ := create_facts hcr
        exact hvalid4
      · have hmono : (s2.block cb).tag ≤ (s3.block cb).tag := by
          clear hcr hreuse
          induction hsteps with
          | refl => exact le_refl _
          | tail hstep2 hlast ih => exact ih.trans (poolStep_tag_mono hlast cb)
        obtain ⟨cb2, hctx2, htag4, hvalid4, _, htags4, _⟩ := create_facts hcr
        have hceq : cb2 = cb := by
          rw [hctx2] at hreuse
          exact Option.some.inj hreuse
        subst hceq
        rw [htagh, htag4, htags4 _]
        omega

/-- Witness for C3 on the concrete store. -/
theorem c3_deleted_reference_invalidated_witness :
    c3AfterCheckpoint.IsValid c3Ref = false ∧
    c3AfterCheckpoint.Get c3Ref = .error .invalidHandle ∧
    (c3AfterCheckpoint.block 0).tag = (c3Store.block 0).tag + 1 ∧
    (c3AfterCreate.1.block 0).tag = (c3AfterCheckpoint.block 0).tag ∧
    c3AfterCreate.1.IsValid c3AfterCreate.2 = true ∧
    c3Ref.controlBlockTag < c3AfterCreate.2.controlBlockTag :=
  @c3_deleted_reference_invalidated c3Store c3AfterDelete c3AfterCheckpoint
    c3AfterCheckpoint c3AfterCreate.1 c3Ref c3AfterCreate.2 0 9
    (by decide) (by decide) (by decide) (by decide) (by decide)
    Relation.ReflTransGen.refl (by decide) (by decide)

/-- A successful swap either moves nothing or has both indices inside the
component array. -/
theorem swap_ok_cases {s : ComponentPool} {l t : Nat} {s' : ComponentPool}
    (h : s.SwapComponents l t = .ok s') :
    l = t ∨ (l < s.components.length ∧ t < s.components.length) := by
  unfold ComponentPool.SwapComponents at h
  split at h
  · next he => exact Or.inl he
  · split at h
    · exact absurd h (by simp)
    · next hb => right; omega

/-- Counting effect of processing a pending deletion: exactly one record
is destroyed. -/
theorem step_delete_count {s : ComponentPool} {control abs : Nat} {s' : ComponentPool}
    (hpd : (s.block control).IsPendingDeletion = true)
    (hcomp : (s.block control).component = some abs)
    (habs : abs < s.components.length)
    (hclen : s.components.length ≤ MAX_COMPONENTS)
    (hns : s.numSleeping ≤ MAX_COMPONENTS)
    (hna : s.numActive ≤ MAX_COMPONENTS)
    (hact : (s.block control).isActive = true → 1 ≤ s.numActive)
    (h : s.LateUpdateStep control = .ok s') :
    s'.Count = s.Count - 1 ∧ 1 ≤ s.Count := by
  unfold ComponentPool.LateUpdateStep at h
  rw [if_pos hpd] at h
  split at h
  · exact absurd h (by simp)
  · next s1 hdi =>
    dsimp only at h
    split at h
    · exact absurd h (by simp)
    · next p hdeal =>
      obtain ⟨hlen, rfl⟩ := dealloc_ofIdx_ok hdeal
      cases h
      have hcount : s1.Count = s.Count - 1 ∧ 1 ≤ s.Count := by
        unfold ComponentPool.DeleteInternal at hdi
        split at hdi
        · exact absurd hdi (by simp)
        · next sa hsai =>
          unfold ComponentPool.SetActiveInternal at hsai
          split at hsai
          · -- the record is already active: SetActiveInternal does nothing
            next hbeq =>
            have hactive : (s.block control).IsComponentActive = true := by
              cases hx : (s.block control).IsComponentActive
              · rw [hx] at hbeq
                simp at hbeq
              · rfl
            have hna1 : 1 ≤ s.numActive := hact hactive
            cases hsai
            split at hdi
            · exact absurd hdi (by simp)
            · next abs2 hcomp2 =>
              dsimp only at hdi
              split at hdi
              · exact absurd hdi (by simp)
              · next sb hswap =>
                obtain ⟨w1, w2, w3, w4, w5, w6, w7, wag⟩ := swap_frame hswap
                cases hdi
                constructor
                · show usub sb.numActive 1 + sb.numSleeping = s.Count - 1
                  rw [w3, w4]
                  rw [usub_eq_sub hna1 (by unfold SIZE_MOD; unfold MAX_COMPONENTS at hna; omega)]
                  unfold ComponentPool.Count
                  omega
                · unfold ComponentPool.Count
                  omega
          · -- the record is sleeping: it is woken first
            split at hsai
            · exact absurd hsai (by simp)
            · next abs0 hcomp0 =>
              rw [if_pos rfl] at hsai
              dsimp only at hsai
              split at hsai
              · exact absurd hsai (by simp)
              · next sw hswap0 =>
                obtain ⟨v1, v2, v3, v4, v5, v6, v7, vag⟩ := swap_frame hswap0
                have habs0 : abs0 = abs := by
                  rw [hcomp0] at hcomp
                  exact Option.some.inj hcomp
                subst habs0
                have hns1 : 1 ≤ s.numSleeping := by
                  rcases swap_ok_cases hswap0 with he | hb
                  · by_contra hzero
                    have hz : s.numSleeping = 0 := by omega
                    rw [hz] at he
                    have h64 : usub 0 1 = 2 ^ 64 - 1 := by decide
                    rw [h64] at he
                    unfold MAX_COMPONENTS at hclen
                    omega
                  · by_contra hzero
                    have hz : s.numSleeping = 0 := by omega
                    rw [hz] at hb
                    have h64 : usub 0 1 = 2 ^ 64 - 1 := by decide
                    rw [h64] at hb
                    unfold MAX_COMPONENTS at hclen
                    omega
                cases hsai
                split at hdi
                · exact absurd hdi (by simp)
                · next abs2 hcomp2 =>
                  dsimp only at hdi
                  split at hdi
                  · exact absurd hdi (by simp)
                  · next sb hswap =>
                    obtain ⟨w1, w2, w3, w4, w5, w6, w7, wag⟩ := swap_frame hswap
                    cases hdi
                    have husub : usub s.numSleeping 1 = s.numSleeping - 1 :=
                      usub_eq_sub hns1 (by unfold SIZE_MOD; unfold MAX_COMPONENTS at hns; omega)
                    constructor
                    · show usub sb.numActive 1 + sb.numSleeping = s.Count - 1
                      rw [w3, w4]
                      show usub (sw.numActive + 1) 1 + usub sw.numSleeping 1 = s.Count - 1
                      rw [v3, v4, husub]
                      rw [usub_eq_sub (by omega) (by unfold SIZE_MOD; unfold MAX_COMPONENTS at hna; omega)]
                      unfold ComponentPool.Count
                      omega
                    · unfold ComponentPool.Count
                      omega
      refine ⟨?_, hcount.2⟩
      show s1.Count = s.Count - 1
      exact hcount.1

/-- A drain over an empty pending list does nothing. -/
theorem drain_none (fuel : Nat) {s : ComponentPool} (h : s.pendingHead = none) :
    ComponentPool.LateUpdateAuxT fuel s = .ok (s, []) := by
  cases fuel <;>
  · unfold ComponentPool.LateUpdateAuxT
    rw [h]

/-- Claim C5: when a block has both a pending activation change and a pending
deletion at the checkpoint, the deletion wins: the record is destroyed
(one fewer record), the block is unbound, flag-free and returned to the
pool as the new free-list head, the reference becomes invalid, and no
activation side effect of that block survives. -/
theorem c5_delete_dominates_pending_activation
    {s s' : ComponentPool} {h : ComponentReference} {cb abs : Nat}
    (hctx : h.context = some cb)
    (hvalid : s.IsValid h = true)
    (hcomp : (s.block cb).component = some abs)
    (habs : abs < s.components.length)
    (hclen : s.components.length ≤ MAX_COMPONENTS)
    (hpd : (s.block cb).pendingDelete = true)
    (hpa : (s.block cb).IsPendingActiveStateChange = true)
    (hq : s.pendingHead = some cb)
    (hnext : (s.block cb).next = none)
    (hns : s.numSleeping ≤ MAX_COMPONENTS)
    (hna : s.numActive ≤ MAX_COMPONENTS)
    (hact : (s.block cb).isActive = true → 1 ≤ s.numActive)
    (hlu : s.LateUpdate = .ok s') :
    (s'.block cb).tag = (s.block cb).tag + 1 ∧
    s'.IsValid h = false ∧ s'.Get h = .error .invalidHandle ∧
    (s'.block cb).component = none ∧ (s'.block cb).isActive = false ∧
    (s'.block cb).pendingActive = false ∧ (s'.block cb).pendingSleep = false ∧
    (s'.block cb).pendingDelete = false ∧
    s'.controlBlockPool.poolHead = some cb ∧
    s'.Count = s.Count - 1 ∧ 1 ≤ s.Count := by
  have htagh : h.controlBlockTag = (s.block cb).tag := by
    unfold ComponentPool.IsValid at hvalid
    rw [hctx] at hvalid
    dsimp only at hvalid
    simpa using hvalid
  obtain ⟨ord, haux⟩ := lateUpdate_ok hlu
  unfold ComponentPool.LateUpdateAuxT at haux
  rw [hq] at haux
  dsimp only at haux
  rcases hstep : (({ s with pendingHead := (s.block cb).next } : ComponentPool).LateUpdateStep cb)
    with e | sa
  · rw [hstep] at haux
    exact absurd haux (by simp)
  · rw [hstep] at haux
    dsimp only at haux
    obtain ⟨e1, e2, e3, e4, e5, e6, e7, e8⟩ :=
      @step_delete_result ({ s with pendingHead := (s.block cb).next }) cb sa hpd hstep
    have hpnone : sa.pendingHead = none := by
      rw [e8]
      exact hnext
    obtain ⟨hcnt0, hcnt10⟩ :=
      @step_delete_count ({ s with pendingHead := (s.block cb).next }) cb abs sa
        hpd hcomp habs hclen hns hna hact hstep
    have hcnt : sa.Count = s.Count - 1 := hcnt0
    have hcnt1 : 1 ≤ s.Count := hcnt10
    have htag : (sa.block cb).tag = (s.block cb).tag + 1 := e1
    rw [drain_none MAX_COMPONENTS hpnone] at haux
    dsimp only at haux
    cases haux
    have hvalid2 : s'.IsValid h = false := by
      unfold ComponentPool.IsValid
      rw [hctx]
      dsimp only
      rw [htagh, htag]
      simp
    refine ⟨htag, hvalid2, ?_, e2, e3, e4, e5, e6, e7, hcnt, hcnt1⟩
    unfold ComponentPool.Get
    rw [hvalid2]
    rfl

/-- Witness for C5 on the concrete store. -/
theorem c5_delete_dominates_pending_activation_witness :
    (c5AfterCheckpoint.block 0).tag = (c5Store.block 0).tag + 1 ∧
    c5AfterCheckpoint.IsValid c5Ref = false ∧
    c5AfterCheckpoint.Get c5Ref = .error .invalidHandle ∧
    (c5AfterCheckpoint.block 0).component = none ∧
    (c5AfterCheckpoint.block 0).isActive = false ∧
    (c5AfterCheckpoint.block 0).pendingActive = false ∧
    (c5AfterCheckpoint.block 0).pendingSleep = false ∧
    (c5AfterCheckpoint.block 0).pendingDelete = false ∧
    c5AfterCheckpoint.controlBlockPool.poolHead = some 0 ∧
    c5AfterCheckpoint.Count = c5Store.Count - 1 ∧ 1 ≤ c5Store.Count :=
  @c5_delete_dominates_pending_activation c5Store c5AfterCheckpoint c5Ref 0 0
    (by decide) (by decide) (by decide) (by decide) (by decide) (by decide)
    (by decide) (by decide) (by decide) (by decide) (by decide) (by decide)
    (by decide)

/-- After a successful SetActiveInternal on an in-range block, the
block's IS_ACTIVE flag equals the requested value. -/
theorem sai_result {s : ComponentPool} {cb : Nat} {b : Bool} {s' : ComponentPool}
    (h : s.SetActiveInternal cb b = .ok s')
    (hlen : cb < s.controlBlockPool.pool.length) :
    (s'.block cb).isActive = b := by
  unfold ComponentPool.SetActiveInternal at h
  split at h
  · next hbeq =>
    cases h
    have hb : b = (s.block cb).IsComponentActive := by
      simpa using hbeq
    rw [hb]
    rfl
  · split at h
    · exact absurd h (by simp)
    · next abs heqc =>
      split at h
      all_goals {
        dsimp only at h
        split at h
        · exact absurd h (by simp)
        · next s1 hswap =>
          obtain ⟨e1, e2, e3, e4, e5, e6, e7, hag⟩ := swap_frame hswap
          cases h
          rw [block_setBlock]
          rw [if_pos ⟨rfl, by rw [e5]; exact hlen⟩]
          rfl
      }

/-- Processing a queued activation change (with no pending deletion)
applies the requested active state and clears the pending flags; the tag
is untouched. -/
theorem step_activation_result {s : ComponentPool} {control : Nat} {s' : ComponentPool}
    (hpd : (s.block control).pendingDelete = false)
    (hpa : (s.block control).IsPendingActiveStateChange = true)
    (hlen : control < s.controlBlockPool.pool.length)
    (h : s.LateUpdateStep control = .ok s') :
    (s'.block control).isActive = (s.block control).pendingActive ∧
    (s'.block control).pendingActive = false ∧
    (s'.block control).pendingSleep = false ∧
    (s'.block control).pendingDelete = false ∧
    (s'.block control).tag = (s.block control).tag ∧
    s'.pendingHead = s.pendingHead := by
  unfold ComponentPool.LateUpdateStep at h
  rw [if_neg (by simp [ComponentReferenceControlBlock.IsPendingDeletion, hpd])] at h
  rw [if_pos hpa] at h
  split at h
  · exact absurd h (by simp)
  · next s1 hsai =>
    obtain ⟨p1, p2, p3, p4, p5, hsk, hact⟩ := sai_frame hsai
    have hres := sai_result hsai hlen
    cases h
    have hlen1 : control < s1.controlBlockPool.pool.length := by
      rw [p3]
      exact hlen
    rw [block_setBlock, if_pos ⟨rfl, hlen1⟩]
    refine ⟨?_, rfl, rfl, rfl, ?_, by simpa [ComponentPool.setBlock] using p1⟩
    · show (s1.block control).isActive = (s.block control).pendingActive
      rw [hres]
      rfl
    · show (s1.block control).tag = (s.block control).tag
      exact (hsk control).2.1

/-- Claim C10: a later opposing activation request does not cancel a queued
one.  SetActive compares the desired state against the applied IS_ACTIVE
flag, not against the pending request, so on an active record with a
queued sleep a further SetActive-true returns with the store completely
unchanged (and symmetrically for a sleeping record with a queued wake);
the queued request is then still applied at the next checkpoint. -/
theorem c10_opposing_request_is_noop :
    (∀ (s : ComponentPool) (h : ComponentReference) (cb : Nat),
      h.context = some cb → s.IsValid h = true →
      cb < s.controlBlockPool.pool.length →
      (s.block cb).isActive = true → (s.block cb).pendingSleep = true →
      s.SetActive h true = .ok s) ∧
    (∀ (s : ComponentPool) (h : ComponentReference) (cb : Nat),
      h.context = some cb → s.IsValid h = true →
      cb < s.controlBlockPool.pool.length →
      (s.block cb).isActive = false → (s.block cb).pendingActive = true →
      s.SetActive h false = .ok s) ∧
    (∀ (s s' : ComponentPool) (cb : Nat),
      (s.block cb).pendingDelete = false → (s.block cb).pendingActive = false →
      (s.block cb).pendingSleep = true → (s.block cb).isActive = true →
      s.pendingHead = some cb → (s.block cb).next = none →
      cb < s.controlBlockPool.pool.length →
      s.LateUpdate = .ok s' →
      (s'.block cb).isActive = false ∧ (s'.block cb).pendingActive = false ∧
      (s'.block cb).pendingSleep = false ∧ (s'.block cb).pendingDelete = false ∧
      (s'.block cb).tag = (s.block cb).tag) ∧
    (∀ (s s' : ComponentPool) (cb : Nat),
      (s.block cb).pendingDelete = false → (s.block cb).pendingActive = true →
      (s.block cb).pendingSleep = false → (s.block cb).isActive = false →
      s.pendingHead = some cb → (s.block cb).next = none →
      cb < s.controlBlockPool.pool.length →
      s.LateUpdate = .ok s' →
      (s'.block cb).isActive = true ∧ (s'.block cb).pendingActive = false ∧
      (s'.block cb).pendingSleep = false ∧ (s'.block cb).pendingDelete = false ∧
      (s'.block cb).tag = (s.block cb).tag) := by
  have hnoop : ∀ (s : ComponentPool) (h : ComponentReference) (cb : Nat) (b : Bool),
      h.context = some cb → s.IsValid h = true →
      cb < s.controlBlockPool.pool.length →
      (s.block cb).isActive = b →
      s.SetActive h b = .ok s := by
    intro s h cb b hctx hvalid hcb hactive
    unfold ComponentPool.SetActive
    rw [hvalid, hctx]
    dsimp only
    rw [isPointerValid_ofIdx]
    simp [hcb, ComponentReferenceControlBlock.IsComponentActive, hactive]
  have happly : ∀ (s s' : ComponentPool) (cb : Nat),
      (s.block cb).pendingDelete = false →
      (s.block cb).IsPendingActiveStateChange = true →
      s.pendingHead = some cb → (s.block cb).next = none →
      cb < s.controlBlockPool.pool.length →
      s.LateUpdate = .ok s' →
      (s'.block cb).isActive = (s.block cb).pendingActive ∧
      (s'.block cb).pendingActive = false ∧
      (s'.block cb).pendingSleep = false ∧ (s'.block cb).pendingDelete = false ∧
      (s'.block cb).tag = (s.block cb).tag := by
    intro s s' cb hpd hpa hq hnext hcb hlu
    obtain ⟨ord, haux⟩ := lateUpdate_ok hlu
    unfold ComponentPool.LateUpdateAuxT at haux
    rw [hq] at haux
    dsimp only at haux
    rcases hstep : (({ s with pendingHead := (s.block cb).next } : ComponentPool).LateUpdateStep cb)
      with e | sa
    · rw [hstep] at haux
      exact absurd haux (by simp)
    · rw [hstep] at haux
      dsimp only at haux
      obtain ⟨e1, e2, e3, e4, e5, e6⟩ :=
        @step_activation_result ({ s with pendingHead := (s.block cb).next }) cb sa
          hpd hpa hcb hstep
      have hpnone : sa.pendingHead = none := by
        rw [e6]
        exact hnext
      rw [drain_none MAX_COMPONENTS hpnone] at haux
      dsimp only at haux
      have ha : (sa.block cb).isActive = (s.block cb).pendingActive := e1
      have ht : (sa.block cb).tag = (s.block cb).tag := e5
      cases haux
      exact ⟨ha, e2, e3, e4, ht⟩
  refine ⟨fun s h cb hctx hvalid hcb hactive _ => hnoop s h cb true hctx hvalid hcb hactive,
    fun s h cb hctx hvalid hcb hactive _ => hnoop s h cb false hctx hvalid hcb hactive,
    fun s s' cb hpd hpa hps hactive hq hnext hcb hlu => ?_,
    fun s s' cb hpd hpa hps hactive hq hnext hcb hlu => ?_⟩
  · obtain ⟨a1, a2, a3, a4, a5⟩ := happly s s' cb hpd
      (by simp [ComponentReferenceControlBlock.IsPendingActiveStateChange, hps]) hq hnext hcb hlu
    rw [hpa] at a1
    exact ⟨a1, a2, a3, a4, a5⟩
  · obtain ⟨a1, a2, a3, a4, a5⟩ := happly s s' cb hpd
      (by simp [ComponentReferenceControlBlock.IsPendingActiveStateChange, hpa]) hq hnext hcb hlu
    rw [hpa] at a1
    exact ⟨a1, a2, a3, a4, a5⟩

/-- Witness for C10: the opposing wake request is a no-op on the concrete
store, and the queued sleep still takes effect at the checkpoint. -/
theorem c10_opposing_request_is_noop_witness :
    c10Store.SetActive c10Ref true = .ok c10Store ∧
    ((c10AfterCheckpoint.block 0).isActive = false ∧
     (c10AfterCheckpoint.block 0).pendingActive = false ∧
     (c10AfterCheckpoint.block 0).pendingSleep = false ∧
     (c10AfterCheckpoint.block 0).pendingDelete = false ∧
     (c10AfterCheckpoint.block 0).tag = (c10Store.block 0).tag) :=
  ⟨c10_opposing_request_is_noop.1 c10Store c10Ref 0 (by decide) (by decide)
      (by decide) (by decide) (by decide),
    c10_opposing_request_is_noop.2.2.1 c10Store c10AfterCheckpoint 0 (by decide)
      (by decide) (by decide) (by decide) (by decide) (by decide) (by decide)
      (by decide)⟩

/-- A chain is determined by the lengths and the next links of its own
entries. -/
theorem chainIs_congr {blocks blocks' : List ComponentReferenceControlBlock}
    {head : Option Nat} {L : List Nat}
    (hc : ChainIs blocks head L)
    (hlen : blocks'.length = blocks.length)
    (hnext : ∀ j, j ∈ L → (blocks'.getD j default).next = (blocks.getD j default).next) :
    ChainIs blocks' head L := by
  induction hc with
  | nil => exact ChainIs.nil
  | cons i rest hilen htail ih =>
    refine ChainIs.cons i rest (by omega) ?_
    rw [hnext i (by simp)]
    exact ih (fun j hj => hnext j (by simp [hj]))

/-- The drain processes exactly the blocks on the pending chain, in chain
order (most recently pushed first), each exactly once. -/
theorem drain_order (fuel : Nat) :
    ∀ {s s' : ComponentPool} {ord L : List Nat},
    ChainIs s.controlBlockPool.pool s.pendingHead L → L.Nodup →
    ComponentPool.LateUpdateAuxT fuel s = .ok (s', ord) → ord = L := by
  induction fuel with
  | zero =>
    intro s s' ord L hchain hnodup h
    unfold ComponentPool.LateUpdateAuxT at h
    split at h
    · next heq =>
      cases h
      rw [heq] at hchain
      cases hchain
      rfl
    · exact absurd h (by simp)
  | succ fuel ih =>
    intro s s' ord L hchain hnodup h
    unfold ComponentPool.LateUpdateAuxT at h
    split at h
    · next heq =>
      cases h
      rw [heq] at hchain
      cases hchain
      rfl
    · next control heq =>
      rw [heq] at hchain
      cases hchain with
      | cons _ rest hilen htail =>
        dsimp only at h
        rcases hstep : (({ s with pendingHead := (s.block control).next } : ComponentPool).LateUpdateStep control)
          with e | s1
        · rw [hstep] at h
          exact absurd h (by simp)
        · rw [hstep] at h
          dsimp only at h
          rcases hrec : ComponentPool.LateUpdateAuxT fuel s1 with e | pr
          · rw [hrec] at h
            exact absurd h (by simp)
          · obtain ⟨s2, rest2⟩ := pr
            rw [hrec] at h
            dsimp only at h
            cases h
            obtain ⟨f1, f2, f3, f4, ff⟩ := step_frame hstep
            have hph1 : s1.pendingHead = (s.block control).next := f1
            have hchain1 : ChainIs s1.controlBlockPool.pool s1.pendingHead rest := by
              rw [hph1]
              refine chainIs_congr htail ?_ ?_
              · exact f2
              · intro j hj
                have hjne : j ≠ control := by
                  intro hc
                  subst hc
                  exact (List.nodup_cons.mp hnodup).1 hj
                have := (ff j hjne).1
                exact this
            have hrest2 : rest2 = rest :=
              ih hchain1 (List.nodup_cons.mp hnodup).2 hrec
            rw [hrest2]

/-- Inversion of a SetActive that newly enqueues its block: the block is
pushed at the head of the pending list, its link pointing at the old
head; all other blocks are untouched. -/
theorem setActive_enqueue {s : ComponentPool} {h : ComponentReference} {cb : Nat}
    {b : Bool} {s' : ComponentPool} (hsa : s.SetActive h b = .ok s')
    (hctx : h.context = some cb)
    (hnp : (s.block cb).IsPendingChanges = false)
    (hne : (b == (s.block cb).IsComponentActive) = false) :
    cb < s.controlBlockPool.pool.length ∧
    s'.pendingHead = some cb ∧
    (s'.block cb).next = s.pendingHead ∧
    (∀ j, j ≠ cb → s'.block j = s.block j) ∧
    s'.controlBlockPool.pool.length = s.controlBlockPool.pool.length := by
  unfold ComponentPool.SetActive at hsa
  split at hsa
  · exact absurd hsa (by simp)
  · split at hsa
    · exact absurd hsa (by simp)
    · next context hctxeq =>
      have hceq : context = cb := by
        rw [hctxeq] at hctx
        exact Option.some.inj hctx
      subst hceq
      split at hsa
      · exact absurd hsa (by simp)
      · next hptr =>
        have hcb : context < s.controlBlockPool.pool.length := by
          rw [Bool.not_eq_true, isPointerValid_ofIdx] at hptr
          simpa using hptr
        split at hsa
        · next hbeq =>
          rw [hne] at hbeq
          exact absurd hbeq (by simp)
        · dsimp only at hsa
          rw [if_neg (by rw [hnp]; simp)] at hsa
          cases hsa
          refine ⟨hcb, rfl, ?_, fun j hj => ?_, ?_⟩
          · rw [block_setBlock]
            rw [if_pos ⟨rfl, by simpa [ComponentPool.setBlock] using hcb⟩]
            obtain ⟨m1, m2, m3, m4⟩ := mark_active_fields _ b
            refine m4.trans ?_
            rw [block_pendingHead, block_setBlock, if_pos ⟨rfl, hcb⟩]
          · rw [block_setBlock]
            rw [if_neg (fun hc => hj hc.1.symm)]
            rw [block_pendingHead, block_setBlock]
            rw [if_neg (fun hc => hj hc.1.symm)]
          · simp [ComponentPool.setBlock, List.length_set]

/-- Claim C7: LateUpdate drains the pending list head first, processing each
distinct queued block exactly once, and both SetActive and Delete push a
newly queued block at the head of the list — so the blocks queued before
one checkpoint are processed in LIFO order of their enqueueing, the most
recently enqueued block first. -/
theorem c7_drain_processes_lifo :
    (∀ (s s' : ComponentPool) (ord L : List Nat),
      ChainIs s.controlBlockPool.pool s.pendingHead L → L.Nodup →
      s.LateUpdateT = .ok (s', ord) → ord = L) ∧
    (∀ (s s' : ComponentPool) (h : ComponentReference) (b : Bool) (cb : Nat) (L : List Nat),
      h.context = some cb → (s.block cb).IsPendingChanges = false →
      (b == (s.block cb).IsComponentActive) = false →
      s.SetActive h b = .ok s' →
      ChainIs s.controlBlockPool.pool s.pendingHead L → L.Nodup → cb ∉ L →
      ChainIs s'.controlBlockPool.pool s'.pendingHead (cb :: L) ∧ (cb :: L).Nodup) ∧
    (∀ (s s' : ComponentPool) (h : ComponentReference) (cb : Nat) (L : List Nat),
      h.context = some cb → (s.block cb).IsPendingChanges = false →
      s.Delete h = .ok s' →
      ChainIs s.controlBlockPool.pool s.pendingHead L → L.Nodup → cb ∉ L →
      ChainIs s'.controlBlockPool.pool s'.pendingHead (cb :: L) ∧ (cb :: L).Nodup) := by
  refine ⟨fun s s' ord L hchain hnodup h => drain_order _ hchain hnodup h,
    fun s s' h b cb L hctx hnp hne hsa hchain hnodup hnotin => ?_,
    fun s s' h cb L hctx hnp hdel hchain hnodup hnotin => ?_⟩
  · obtain ⟨hcb, hph, hnext, hother, hlen⟩ := setActive_enqueue hsa hctx hnp hne
    refine ⟨?_, List.nodup_cons.mpr ⟨hnotin, hnodup⟩⟩
    rw [hph]
    refine ChainIs.cons cb L (by omega) ?_
    have hnext2 : ((s'.controlBlockPool.pool.getD cb default).next) = s.pendingHead := hnext
    rw [hnext2]
    refine chainIs_congr hchain hlen ?_
    intro j hj
    have hjne : j ≠ cb := fun hc => hnotin (hc ▸ hj)
    have : s'.block j = s.block j := hother j hjne
    exact congrArg ComponentReferenceControlBlock.next this
  · obtain ⟨hcb, hph, hbcb, hother, _, hlen, _, _, _, _⟩ := delete_result hdel hctx hnp
    refine ⟨?_, List.nodup_cons.mpr ⟨hnotin, hnodup⟩⟩
    rw [hph]
    refine ChainIs.cons cb L (by omega) ?_
    have hnext2 : ((s'.controlBlockPool.pool.getD cb default).next) = s.pendingHead := by
      show (s'.block cb).next = s.pendingHead
      rw [hbcb]
    rw [hnext2]
    refine chainIs_congr hchain hlen ?_
    intro j hj
    have hjne : j ≠ cb := fun hc => hnotin (hc ▸ hj)
    have : s'.block j = s.block j := hother j hjne
    exact congrArg ComponentReferenceControlBlock.next this

/-- Witness for C7: the two queued blocks are processed head first, block
1 (most recently pushed) before block 0. -/
theorem c7_drain_processes_lifo_witness : c7Drained.2 = [1, 0] :=
  c7_drain_processes_lifo.1 c7Store c7Drained.1 c7Drained.2 [1, 0]
    (ChainIs.cons 1 [0] (by decide)
      (ChainIs.cons 0 [] (by decide) ChainIs.nil))
    (by decide) (by decide)

/-- Claim C8, amended: the block pool's failures are PoolExhausted (Allocate
with num_objects = 1 on an empty free list), InvalidPointer (Deallocate
of an invalid pointer), and additionally the object-count error when
Allocate or Deallocate is called with num_objects different from 1; with
num_objects = 1 only the two named failures can occur, and the
pointer-validity check itself never fails. -/
theorem c8_pool_failure_modes :
    (∀ (p : CRCBPool) (n : Nat) (e : PoolError),
      p.Allocate n = .error e → e = .poolExhausted ∨ e = .badObjectCount) ∧
    (∀ (p : CRCBPool) (e : PoolError),
      p.Allocate 1 = .error e → e = .poolExhausted ∧ p.poolHead = none) ∧
    (∀ (p : CRCBPool) (ptr : CRCBPtr) (n : Nat) (e : PoolError),
      p.Deallocate ptr n = .error e → e = .invalidPointer ∨ e = .badObjectCount) ∧
    (∀ (p : CRCBPool) (ptr : CRCBPtr) (e : PoolError),
      p.Deallocate ptr 1 = .error e →
        e = .invalidPointer ∧ p.IsPointerValid ptr = false) := by
  refine ⟨?_, ?_, ?_, ?_⟩
  · intro p n e h
    unfold CRCBPool.Allocate at h
    split at h
    · cases h
      right
      rfl
    · split at h
      · cases h
        left
        rfl
      · exact absurd h (by simp)
  · intro p e h
    unfold CRCBPool.Allocate at h
    rw [if_neg (by decide)] at h
    split at h
    · next heq =>
      cases h
      exact ⟨rfl, heq⟩
    · exact absurd h (by simp)
  · intro p ptr n e h
    unfold CRCBPool.Deallocate at h
    split at h
    · cases h
      right
      rfl
    · split at h
      · cases h
        left
        rfl
      · exact absurd h (by simp)
  · intro p ptr e h
    unfold CRCBPool.Deallocate at h
    rw [if_neg (by decide)] at h
    split at h
    · next hval =>
      cases h
      exact ⟨rfl, by simpa using hval⟩
    · exact absurd h (by simp)

/-- Counterexample for C8 as stated: on a pool whose free list is not
empty, Allocate with num_objects = 2 fails, and the failure is a third
kind, neither PoolExhausted nor InvalidPointer. -/
theorem c8_pool_failure_modes_counterexample :
    CRCBPool.Allocate (freshCRCBPool 4) 2 = .error .badObjectCount ∧
    PoolError.badObjectCount ≠ PoolError.poolExhausted ∧
    PoolError.badObjectCount ≠ PoolError.invalidPointer ∧
    (freshCRCBPool 4).poolHead ≠ none := by decide

/-- Witness for the amended C8 at a concrete empty pool. -/
theorem c8_pool_failure_modes_witness :
    PoolError.poolExhausted = PoolError.poolExhausted ∧
    (CRCBPool.mk [] none).poolHead = none :=
  c8_pool_failure_modes.2.1 ⟨[], none⟩ .poolExhausted (by decide)

/-- Validity of any pointer survives a deallocation (the backing array
extent does not change). -/
theorem dealloc_valid_preserved {p : CRCBPool} {ptr q : CRCBPtr} {p' : CRCBPool}
    (h : p.Deallocate ptr 1 = .ok p') (hq : p.IsPointerValid q = true) :
    p'.IsPointerValid q = true := by
  unfold CRCBPool.Deallocate at h
  rw [if_neg (by decide)] at h
  split at h
  · exact absurd h (by simp)
  · cases h
    unfold CRCBPool.IsPointerValid at hq ⊢
    simpa [List.length_set] using hq

/-- After a deallocation, the freed block is the free-list head and its
link points at the previous head. -/
theorem dealloc_head_next {p : CRCBPool} {ptr : CRCBPtr} {p' : CRCBPool}
    (h : p.Deallocate ptr 1 = .ok p') :
    p'.poolHead = some ptr.offset.toNat ∧
    (ptr.offset.toNat < p.pool.length →
      (p'.pool.getD ptr.offset.toNat default).next = p.poolHead) ∧
    p'.pool.length = p.pool.length := by
  unfold CRCBPool.Deallocate at h
  rw [if_neg (by decide)] at h
  split at h
  · exact absurd h (by simp)
  · cases h
    refine ⟨rfl, fun hi => ?_, by simp [List.length_set]⟩
    rw [listGetD_set_self _ _ _ _ hi]

/-- Allocate pops the free-list head. -/
theorem alloc_ok_of_head {p : CRCBPool} {i : Nat} (h : p.poolHead = some i) :
    p.Allocate 1 = .ok ({ p with poolHead := (p.pool.getD i default).next }, i) := by
  unfold CRCBPool.Allocate
  rw [if_neg (by decide), h]

/-- Claim C9: the pool's deallocation validity check does not track allocation
state: any non-null, in-bounds, slot-aligned pointer is accepted, so
deallocating the same block twice in a row succeeds, and the two
following Allocate calls both return that same block. -/
theorem c9_deallocate_ignores_allocation_state
    {p : CRCBPool} {ptr : CRCBPtr} (hv : p.IsPointerValid ptr = true) :
    ∃ p1 p2 p3 p4,
      p.Deallocate ptr 1 = .ok p1 ∧ p1.Deallocate ptr 1 = .ok p2 ∧
      p2.Allocate 1 = .ok (p3, ptr.offset.toNat) ∧
      p3.Allocate 1 = .ok (p4, ptr.offset.toNat) := by
  have hlen : ptr.offset.toNat < p.pool.length := by
    unfold CRCBPool.IsPointerValid at hv
    simp only [Bool.not_eq_eq_eq_not, Bool.not_true, Bool.or_eq_false_iff,
      decide_eq_false_iff_not, Bool.not_eq_false] at hv
    omega
  have hex1 : ∃ p1, p.Deallocate ptr 1 = .ok p1 := by
    unfold CRCBPool.Deallocate
    rw [if_neg (by decide), if_neg (by rw [hv]; decide)]
    exact ⟨_, rfl⟩
  obtain ⟨p1, hd1⟩ := hex1
  have hv1 := dealloc_valid_preserved hd1 hv
  obtain ⟨hh1, hn1, hl1⟩ := dealloc_head_next hd1
  have hex2 : ∃ p2, p1.Deallocate ptr 1 = .ok p2 := by
    unfold CRCBPool.Deallocate
    rw [if_neg (by decide), if_neg (by rw [hv1]; decide)]
    exact ⟨_, rfl⟩
  obtain ⟨p2, hd2⟩ := hex2
  obtain ⟨hh2, hn2, hl2⟩ := dealloc_head_next hd2
  have hn2b : (p2.pool.getD ptr.offset.toNat default).next = some ptr.offset.toNat := by
    rw [hn2 (by omega)]
    exact hh1
  have ha3 := alloc_ok_of_head hh2
  rw [hn2b] at ha3
  have ha4 := alloc_ok_of_head
    (show ({ p2 with poolHead := some ptr.offset.toNat } : CRCBPool).poolHead
      = some ptr.offset.toNat from rfl)
  rw [show (({ p2 with poolHead := some ptr.offset.toNat } : CRCBPool).pool.getD
      ptr.offset.toNat default).next = some ptr.offset.toNat from hn2b] at ha4
  exact ⟨p1, p2, _, _, hd1, hd2, ha3, ha4⟩

/-- Witness for C9 on a concrete fresh pool of four blocks, with the
pointer to block 2. -/
theorem c9_deallocate_ignores_allocation_state_witness :
    ∃ p1 p2 p3 p4,
      (freshCRCBPool 4).Deallocate (CRCBPtr.ofIdx 2) 1 = .ok p1 ∧
      p1.Deallocate (CRCBPtr.ofIdx 2) 1 = .ok p2 ∧
      p2.Allocate 1 = .ok (p3, (CRCBPtr.ofIdx 2).offset.toNat) ∧
      p3.Allocate 1 = .ok (p4, (CRCBPtr.ofIdx 2).offset.toNat) :=
  c9_deallocate_ignores_allocation_state (by decide)

/-- Claim C1, evidence of the code bug: with one record (r1) already sleeping
(sleeping_count = 1 before the call), set_active(r3, false) followed by
late_update() leaves r3's record in slot 2 instead of moving it to the
boundary slot 1, leaves the still-active record r2 in slot 1, grows the
sleeping partition to 2, and the next Update invokes exactly the slept
record r3's callback (and not the active r2's): SetActiveInternal's
sleeping branch computes loc_index relative to the start of the active
region and passes it to SwapComponents, which expects an absolute
index. -/
theorem c1_sleep_misplaces_record :
    c1TraceOk = true ∧
    c1Pool.numSleeping = 2 ∧ c1Pool.numActive = 1 ∧
    c1Pool.components.getD 1 0 = 2 ∧
    c1Pool.components.getD 2 0 = 3 ∧
    c1Pool.Update = [3] := by decide

/-- Claim C2, evidence of the code bug: the third late_update of the C2 trace computes the
pointer difference 1 - 2 = -1 as loc_index, converts it to size_t
(2 ^ 64 - 1) and hands it to SwapComponents as an array index: an
out-of-bounds access, undefined behavior in the source, so the invariant
cannot be maintained over this sequence. -/
theorem c2_roundtrip_invariant_unmaintainable :
    runOps freshRun c2Trace = .error .undefinedBehavior := by decide

